import Mathlib

/-!
Verification of the KoruClub scheduling and recovery core.

The development shallowly embeds the calendar-rule engine
(`src/utils.ts`, `src/dateCalculator.ts`), the job-run ledger
(`src/jobTracker.ts`), the retry helper (`src/client.ts`) and the
scheduler tick callbacks plus startup reconciliation
(`src/scheduler.ts`).  Dates are modelled by a proleptic-Gregorian
civil-date structure; instants by a date plus hour/minute/second in
the single configured locale, compared through a total second count,
mirroring how the source compares JavaScript `Date` values through
`getTime()`.
-/

/-- Gregorian leap-year test, as used by the JavaScript `Date` calendar. -/
def isLeap (y : Nat) : Bool :=
  (y % 4 == 0 && y % 100 != 0) || (y % 400 == 0)

/-- Length of month `m` (1..12) given the leap flag of its year. -/
def monthLen (leap : Bool) (m : Nat) : Nat :=
  match m with
  | 1 => 31
  | 2 => if leap then 29 else 28
  | 3 => 31
  | 4 => 30
  | 5 => 31
  | 6 => 30
  | 7 => 31
  | 8 => 31
  | 9 => 30
  | 10 => 31
  | 11 => 30
  | _ => 31

/-- Days elapsed in the year strictly before month `m` (1..12). -/
def monthOffset (leap : Bool) (m : Nat) : Nat :=
  (match m with
   | 1 => 0
   | 2 => 31
   | 3 => 59
   | 4 => 90
   | 5 => 120
   | 6 => 151
   | 7 => 181
   | 8 => 212
   | 9 => 243
   | 10 => 273
   | 11 => 304
   | _ => 334)
  + (if leap = true ∧ 3 ≤ m then 1 else 0)

/-- Calendar date (year, month 1..12, day 1..monthLen) in the configured locale. -/
structure CivilDate where
  year : Nat
  month : Nat
  day : Nat
  deriving DecidableEq

/-- Validity of a civil date: months 1..12, days within the month, positive year. -/
def ValidDate (x : CivilDate) : Prop :=
  1 ≤ x.year ∧ 1 ≤ x.month ∧ x.month ≤ 12 ∧ 1 ≤ x.day ∧
    x.day ≤ monthLen (isLeap x.year) x.month

instance decValidDate (x : CivilDate) : Decidable (ValidDate x) :=
  inferInstanceAs (Decidable (1 ≤ x.year ∧ 1 ≤ x.month ∧ x.month ≤ 12 ∧ 1 ≤ x.day ∧
    x.day ≤ monthLen (isLeap x.year) x.month))

/-- Number of days in years 1..y of the proleptic Gregorian calendar. -/
def daysBeforeYear (y : Nat) : Nat :=
  365 * y + y / 4 - y / 100 + y / 400

/-- Serial day number of a civil date (day 1 = January 1 of year 1). -/
def dayNumber (x : CivilDate) : Nat :=
  daysBeforeYear (x.year - 1) + monthOffset (isLeap x.year) x.month + x.day

/-- Weekday of a date, 0 = Sunday .. 6 = Saturday, matching JavaScript `getDay`. -/
def weekday (x : CivilDate) : Nat :=
  dayNumber x % 7

/-- Successor calendar day, mirroring JavaScript `setDate(getDate() + 1)` rollover. -/
def nextDay (x : CivilDate) : CivilDate :=
  if x.day < monthLen (isLeap x.year) x.month then ⟨x.year, x.month, x.day + 1⟩
  else if x.month < 12 then ⟨x.year, x.month + 1, 1⟩
  else ⟨x.year + 1, 1, 1⟩

/-- Previous calendar day, mirroring JavaScript `setDate(getDate() - 1)` rollover. -/
def prevDay (x : CivilDate) : CivilDate :=
  if 1 < x.day then ⟨x.year, x.month, x.day - 1⟩
  else if 1 < x.month then ⟨x.year, x.month - 1, monthLen (isLeap x.year) (x.month - 1)⟩
  else ⟨x.year - 1, 12, 31⟩

/-- Iterated successor day, the embedding of the source's `addDays(date, n)`. -/
def addDays (x : CivilDate) : Nat → CivilDate
  | 0 => x
  | n + 1 => addDays (nextDay x) n

/-- Iterated predecessor day, the embedding of `addDays(date, -n)`. -/
def subDays (x : CivilDate) : Nat → CivilDate
  | 0 => x
  | n + 1 => subDays (prevDay x) n

/-- Embedding of `isFirstOrThirdMonday` from `src/utils.ts`: Monday with
day-of-month in 1..7 or 15..21. -/
def isFirstOrThirdMonday (x : CivilDate) : Prop :=
  weekday x = 1 ∧ ((1 ≤ x.day ∧ x.day ≤ 7) ∨ (15 ≤ x.day ∧ x.day ≤ 21))

instance decIsFirstOrThirdMonday (x : CivilDate) : Decidable (isFirstOrThirdMonday x) :=
  inferInstanceAs (Decidable (weekday x = 1 ∧ ((1 ≤ x.day ∧ x.day ≤ 7) ∨ (15 ≤ x.day ∧ x.day ≤ 21))))

/-- Embedding of `isSecondOrFourthFriday` from `src/utils.ts`. -/
def isSecondOrFourthFriday (x : CivilDate) : Prop :=
  weekday x = 5 ∧ ((8 ≤ x.day ∧ x.day ≤ 14) ∨ (22 ≤ x.day ∧ x.day ≤ 28))

instance decIsSecondOrFourthFriday (x : CivilDate) : Decidable (isSecondOrFourthFriday x) :=
  inferInstanceAs (Decidable (weekday x = 5 ∧ ((8 ≤ x.day ∧ x.day ≤ 14) ∨ (22 ≤ x.day ∧ x.day ≤ 28))))

/-- Embedding of `isSecondOrFourthWednesday` from `src/utils.ts`. -/
def isSecondOrFourthWednesday (x : CivilDate) : Prop :=
  weekday x = 3 ∧ ((8 ≤ x.day ∧ x.day ≤ 14) ∨ (22 ≤ x.day ∧ x.day ≤ 28))

instance decIsSecondOrFourthWednesday (x : CivilDate) : Decidable (isSecondOrFourthWednesday x) :=
  inferInstanceAs (Decidable (weekday x = 3 ∧ ((8 ≤ x.day ∧ x.day ≤ 14) ∨ (22 ≤ x.day ∧ x.day ≤ 28))))

/-- Embedding of `isSecondSaturday` from `src/utils.ts`. -/
def isSecondSaturday (x : CivilDate) : Prop :=
  weekday x = 6 ∧ 8 ≤ x.day ∧ x.day ≤ 14

instance decIsSecondSaturday (x : CivilDate) : Decidable (isSecondSaturday x) :=
  inferInstanceAs (Decidable (weekday x = 6 ∧ 8 ≤ x.day ∧ x.day ≤ 14))

/-- Embedding of `isLastDayOfMonth` from `src/utils.ts`: tomorrow's
day-of-month is 1. -/
def isLastDayOfMonth (x : CivilDate) : Prop :=
  (nextDay x).day = 1

instance decIsLastDayOfMonth (x : CivilDate) : Decidable (isLastDayOfMonth x) :=
  inferInstanceAs (Decidable ((nextDay x).day = 1))

/-- Wall-clock instant: a civil date plus local hour, minute and second. -/
structure DT where
  date : CivilDate
  hour : Nat
  minute : Nat
  second : Nat
  deriving DecidableEq

/-- Total second count of an instant, the analogue of JavaScript `getTime()`. -/
def toSec (t : DT) : Nat :=
  dayNumber t.date * 86400 + t.hour * 3600 + t.minute * 60 + t.second

/-- Second count of a date's local midnight. -/
def midnightSec (x : CivilDate) : Nat :=
  dayNumber x * 86400

/-- Forward day-by-day scan for the first date satisfying a calendar rule,
the loop body shared by all `getNext*` functions of `src/dateCalculator.ts`. -/
def searchDate (p : CivilDate → Prop) [DecidablePred p] (c : CivilDate) : Nat → Option CivilDate
  | 0 => none
  | fuel + 1 => if p c then some c else searchDate p (nextDay c) fuel

/-- Scan start used by `getNextFirstOrThirdMonday`: the `from` date, advanced one
day when that same qualifying date is today and the 9am slot has passed. -/
def mondayStart (dfrom now : DT) : CivilDate :=
  if isFirstOrThirdMonday dfrom.date ∧ dfrom.date = now.date ∧ 9 ≤ now.hour then
    nextDay dfrom.date
  else dfrom.date

/-- Embedding of `getNextFirstOrThirdMonday` from `src/dateCalculator.ts`.
The ambient clock read by `getNZDate()` is passed explicitly as `now`. -/
def getNextFirstOrThirdMonday (dfrom now : DT) : DT :=
  match searchDate isFirstOrThirdMonday (mondayStart dfrom now) 31 with
  | some c => ⟨c, 9, 0, 0⟩
  | none => ⟨dfrom.date, 9, 0, 0⟩

/-- Scan start used by `getNextSecondOrFourthFriday`; the source's skip guard
is `now.getHours() >= 15 || (now.getHours() === 15 && now.getMinutes() >= 30)`,
embedded verbatim. -/
def fridayStart (dfrom now : DT) : CivilDate :=
  if isSecondOrFourthFriday dfrom.date ∧ dfrom.date = now.date ∧
      (15 ≤ now.hour ∨ (now.hour = 15 ∧ 30 ≤ now.minute)) then
    nextDay dfrom.date
  else dfrom.date

/-- Embedding of `getNextSecondOrFourthFriday` from `src/dateCalculator.ts`. -/
def getNextSecondOrFourthFriday (dfrom now : DT) : DT :=
  match searchDate isSecondOrFourthFriday (fridayStart dfrom now) 31 with
  | some c => ⟨c, 15, 30, 0⟩
  | none => ⟨dfrom.date, 15, 30, 0⟩

/-- Scan start used by `getNextSecondOrFourthWednesday`. -/
def wednesdayStart (dfrom now : DT) : CivilDate :=
  if isSecondOrFourthWednesday dfrom.date ∧ dfrom.date = now.date ∧ 9 ≤ now.hour then
    nextDay dfrom.date
  else dfrom.date

/-- Embedding of `getNextSecondOrFourthWednesday` from `src/dateCalculator.ts`. -/
def getNextSecondOrFourthWednesday (dfrom now : DT) : DT :=
  match searchDate isSecondOrFourthWednesday (wednesdayStart dfrom now) 31 with
  | some c => ⟨c, 9, 0, 0⟩
  | none => ⟨dfrom.date, 9, 0, 0⟩

/-- Scan start used by `getNextSecondSaturday`. -/
def saturdayStart (dfrom now : DT) : CivilDate :=
  if isSecondSaturday dfrom.date ∧ dfrom.date = now.date ∧ 10 ≤ now.hour then
    nextDay dfrom.date
  else dfrom.date

/-- Embedding of `getNextSecondSaturday` from `src/dateCalculator.ts`. -/
def getNextSecondSaturday (dfrom now : DT) : DT :=
  match searchDate isSecondSaturday (saturdayStart dfrom now) 45 with
  | some c => ⟨c, 10, 0, 0⟩
  | none => ⟨dfrom.date, 10, 0, 0⟩

/-- Scan start used by `getNextMonthEnd`. -/
def monthEndStart (dfrom now : DT) : CivilDate :=
  if isLastDayOfMonth dfrom.date ∧ dfrom.date = now.date ∧ 9 ≤ now.hour then
    nextDay dfrom.date
  else dfrom.date

/-- Embedding of `getNextMonthEnd` from `src/dateCalculator.ts`. -/
def getNextMonthEnd (dfrom now : DT) : DT :=
  match searchDate isLastDayOfMonth (monthEndStart dfrom now) 32 with
  | some c => ⟨c, 9, 0, 0⟩
  | none => ⟨dfrom.date, 9, 0, 0⟩

/-- The five job kinds of the scheduler, named as in `src/dateCalculator.ts`. -/
inductive JobType where
  | monday
  | friday
  | demo
  | checkIn
  | monthEnd
  deriving DecidableEq

/-- Calendar predicate of a job type, the embedding of `getCheckerForJobType`. -/
def jobChecker : JobType → CivilDate → Prop
  | .monday => isFirstOrThirdMonday
  | .friday => isSecondOrFourthFriday
  | .demo => isSecondSaturday
  | .checkIn => isSecondOrFourthWednesday
  | .monthEnd => isLastDayOfMonth

instance decJobChecker (j : JobType) : DecidablePred (jobChecker j) := by
  cases j <;> exact fun x => by
    unfold jobChecker
    infer_instance

/-- Configured hour of each job type, from the `JOB_TIMES` table. -/
def jobHour : JobType → Nat
  | .monday => 9
  | .friday => 15
  | .demo => 10
  | .checkIn => 9
  | .monthEnd => 9

/-- Configured minute of each job type, from the `JOB_TIMES` table. -/
def jobMinute : JobType → Nat
  | .friday => 30
  | _ => 0

/-- Backward day-by-day scan used by `getMostRecentScheduledDate`: each step
first moves one day back and then tests the rule. -/
def backSearch (p : CivilDate → Prop) [DecidablePred p] (c : CivilDate) : Nat → Option CivilDate
  | 0 => none
  | fuel + 1 =>
    if p (prevDay c) then some (prevDay c) else backSearch p (prevDay c) fuel

/-- Embedding of `getMostRecentScheduledDate` from `src/dateCalculator.ts`:
scan up to 14 days strictly before `before`'s day, at the job's time. -/
def getMostRecentScheduledDate (j : JobType) (before : DT) : Option DT :=
  match backSearch (jobChecker j) before.date 14 with
  | some c => some ⟨c, jobHour j, jobMinute j, 0⟩
  | none => none

/-- Status of a job run, the closed form of the status strings in
`src/jobTracker.ts`. -/
inductive Status where
  | pending
  | completed
  | skipped
  | failed
  | missed
  | manual
  deriving DecidableEq

/-- One `ScheduledJobRun` row.  Timestamps are second counts (`toSec`). -/
structure JobRun where
  id : Nat
  jobType : JobType
  scheduledFor : Nat
  status : Status
  executedAt : Option Nat
  skippedReason : Option String
  messageId : Option String
  error : Option String
  deriving DecidableEq

/-- The `SchedulerState` singleton row.  The last heartbeat keeps its full
instant so reconciliation can recover the heartbeat's calendar day. -/
structure SchedState where
  lastHeartbeat : DT
  schedulerStarted : DT
  deriving DecidableEq

/-- The persistent store: job-run rows in insertion order, the id counter of
`insert-with-generated-id`, and the optional scheduler-state singleton. -/
structure Ledger where
  runs : List JobRun
  nextId : Nat
  state : Option SchedState
  deriving DecidableEq

/-- The empty database. -/
def Ledger.init : Ledger := ⟨[], 0, none⟩

/-- Normalization `messageId || null` applied by the source before storing a
message id: JavaScript treats an absent or empty string as `null`. -/
def normMsg (m : Option String) : Option String :=
  match m with
  | some s => if s = "" then none else some s
  | none => none

/-- Embedding of `recordJobFired`: insert a `pending` run, return its id. -/
def recordJobFired (jt : JobType) (scheduledFor : Nat) (L : Ledger) : Nat × Ledger :=
  (L.nextId,
    { L with
      runs := L.runs ++ [⟨L.nextId, jt, scheduledFor, .pending, none, none, none, none⟩]
      nextId := L.nextId + 1 })

/-- Embedding of `recordJobSkipped`: update the run with the given id. -/
def recordJobSkipped (runId : Nat) (reason : String) (now : Nat) (L : Ledger) : Ledger :=
  { L with
    runs := L.runs.map fun r =>
      if r.id = runId then
        { r with status := .skipped, skippedReason := some reason, executedAt := some now }
      else r }

/-- Embedding of `recordJobCompleted`. -/
def recordJobCompleted (runId : Nat) (messageId : Option String) (now : Nat) (L : Ledger) :
    Ledger :=
  { L with
    runs := L.runs.map fun r =>
      if r.id = runId then
        { r with status := .completed, executedAt := some now, messageId := normMsg messageId }
      else r }

/-- Embedding of `recordJobFailed`. -/
def recordJobFailed (runId : Nat) (err : String) (now : Nat) (L : Ledger) : Ledger :=
  { L with
    runs := L.runs.map fun r =>
      if r.id = runId then
        { r with status := .failed, executedAt := some now, error := some err }
      else r }

/-- Strict improvement over the best row found so far during the scan below. -/
def laterThan (best : Option JobRun) (r : JobRun) : Prop :=
  match best with
  | none => True
  | some b => b.scheduledFor < r.scheduledFor

instance decLaterThan (best : Option JobRun) (r : JobRun) : Decidable (laterThan best r) :=
  match best with
  | none => isTrue trivial
  | some b => inferInstanceAs (Decidable (b.scheduledFor < r.scheduledFor))

/-- The `findFirst` of `recordManualTrigger`: the first-inserted `missed` run
of the job type holding the maximal `scheduledFor` (Prisma `orderBy desc`). -/
def selectMissed (jt : JobType) (L : Ledger) : Option JobRun :=
  L.runs.foldl
    (fun best r =>
      if r.jobType = jt ∧ r.status = .missed ∧ laterThan best r then some r
      else best)
    none

/-- Embedding of `recordManualTrigger`: resolve the most recent `missed` run of
the type to `manual`, else insert a fresh `manual` run at `now`; the Boolean
reports whether a missed run was resolved. -/
def recordManualTrigger (jt : JobType) (messageId : Option String) (now : Nat) (L : Ledger) :
    Bool × Ledger :=
  match selectMissed jt L with
  | some mj =>
    (true,
      { L with
        runs := L.runs.map fun r =>
          if r.id = mj.id then
            { r with status := .manual, executedAt := some now, messageId := normMsg messageId }
          else r })
  | none =>
    (false,
      { L with
        runs := L.runs ++
          [⟨L.nextId, jt, now, .manual, some now, none, normMsg messageId, none⟩]
        nextId := L.nextId + 1 })

/-- Embedding of `recordMissedJob`: insert a `missed` run unless any run
already exists for the same `(jobType, scheduledFor)` pair. -/
def recordMissedJob (jt : JobType) (scheduledFor : Nat) (L : Ledger) : Ledger :=
  if ∃ r ∈ L.runs, r.jobType = jt ∧ r.scheduledFor = scheduledFor then L
  else
    { L with
      runs := L.runs ++ [⟨L.nextId, jt, scheduledFor, .missed, none, none, none, none⟩]
      nextId := L.nextId + 1 }

/-- Embedding of `updateHeartbeat`: upsert the singleton state row. -/
def updateHeartbeat (now : DT) (L : Ledger) : Ledger :=
  { L with
    state := some (match L.state with
      | some s => { s with lastHeartbeat := now }
      | none => ⟨now, now⟩) }

/-- Embedding of `getMissedJobs`: all `missed` runs (the claims only need the
underlying set, so the `orderBy asc` presentation is omitted). -/
def getMissedJobs (L : Ledger) : List JobRun :=
  L.runs.filter fun r => r.status = .missed

/-- Runs of a ledger matching a `(jobType, scheduledFor)` pair. -/
def pairCount (L : Ledger) (jt : JobType) (scheduledFor : Nat) : Nat :=
  L.runs.countP fun r => r.jobType = jt ∧ r.scheduledFor = scheduledFor

/-- Runs of a ledger matching a pair and carrying the `missed` status. -/
def missedPairCount (L : Ledger) (jt : JobType) (scheduledFor : Nat) : Nat :=
  L.runs.countP fun r => r.jobType = jt ∧ r.scheduledFor = scheduledFor ∧ r.status = .missed

/-- Bounded retry loop of `retryScheduledTask` in `src/client.ts`.  The
dispatcher maps the attempt number to an optional message id (a `none` models
a thrown send error, which the source catches).  Returns the final result, the
number of attempts performed and the list of back-off delays slept between
consecutive attempts. -/
def retryGo (dispatch : Nat → Option String) (baseDelay attempt : Nat) :
    Nat → Option String × Nat × List Nat
  | 0 => (none, 0, [])
  | remaining + 1 =>
    match dispatch attempt with
    | some msg => (some msg, 1, [])
    | none =>
      if remaining = 0 then (none, 1, [])
      else
        let res := retryGo dispatch baseDelay (attempt + 1) remaining
        (res.1, res.2.1 + 1, baseDelay * attempt :: res.2.2)

/-- Embedding of `retryScheduledTask(taskName, text, group, maxRetries, baseDelay)`:
attempts run from 1 to `maxRetries`, a failed non-final attempt sleeps
`baseDelay * attempt`, and exhaustion returns `null` (here `none`). -/
def retryScheduledTask (dispatch : Nat → Option String) (maxRetries baseDelay : Nat) :
    Option String × Nat × List Nat :=
  retryGo dispatch baseDelay 1 maxRetries

/-- Embedding of the Monday trigger callback in `src/scheduler.ts`. -/
def mondayTick (dispatch : Nat → Option String) (now : DT) (L : Ledger) : Ledger :=
  let fired := recordJobFired .monday (toSec ⟨now.date, 9, 0, 0⟩) L
  if ¬ isFirstOrThirdMonday now.date then
    recordJobSkipped fired.1
      ("Not 1st or 3rd Monday (day " ++ toString now.date.day ++ ")") (toSec now) fired.2
  else
    recordJobCompleted fired.1 (retryScheduledTask dispatch 3 60000).1 (toSec now) fired.2

/-- Embedding of the Friday trigger callback in `src/scheduler.ts`. -/
def fridayTick (dispatch : Nat → Option String) (now : DT) (L : Ledger) : Ledger :=
  let fired := recordJobFired .friday (toSec ⟨now.date, 15, 30, 0⟩) L
  if ¬ isSecondOrFourthFriday now.date then
    recordJobSkipped fired.1
      ("Not 2nd or 4th Friday (day " ++ toString now.date.day ++ ")") (toSec now) fired.2
  else
    recordJobCompleted fired.1 (retryScheduledTask dispatch 3 60000).1 (toSec now) fired.2

/-- Embedding of the Demo Day trigger callback in `src/scheduler.ts`. -/
def demoTick (dispatch : Nat → Option String) (now : DT) (L : Ledger) : Ledger :=
  let fired := recordJobFired .demo (toSec ⟨now.date, 10, 0, 0⟩) L
  if ¬ isSecondSaturday now.date then
    recordJobSkipped fired.1
      ("Not second Saturday (day " ++ toString now.date.day ++ ")") (toSec now) fired.2
  else
    recordJobCompleted fired.1 (retryScheduledTask dispatch 3 60000).1 (toSec now) fired.2

/-- Embedding of the mid-sprint check-in trigger callback in `src/scheduler.ts`. -/
def checkInTick (dispatch : Nat → Option String) (now : DT) (L : Ledger) : Ledger :=
  let fired := recordJobFired .checkIn (toSec ⟨now.date, 9, 0, 0⟩) L
  if ¬ isSecondOrFourthWednesday now.date then
    recordJobSkipped fired.1
      ("Not 2nd or 4th Wednesday (day " ++ toString now.date.day ++ ")") (toSec now) fired.2
  else
    recordJobCompleted fired.1 (retryScheduledTask dispatch 3 60000).1 (toSec now) fired.2

/-- Embedding of the month-end trigger callback in `src/scheduler.ts`: unlike
the other four, it tests the calendar rule before touching the ledger. -/
def monthEndTick (dispatch : Nat → Option String) (now : DT) (L : Ledger) : Ledger :=
  if ¬ isLastDayOfMonth now.date then L
  else
    let fired := recordJobFired .monthEnd (toSec ⟨now.date, 9, 0, 0⟩) L
    recordJobCompleted fired.1 (retryScheduledTask dispatch 3 60000).1 (toSec now) fired.2

/-- The `getNext*` function the reconciler pairs with each weekday job type. -/
def jobGetNext : JobType → DT → DT → DT
  | .monday => getNextFirstOrThirdMonday
  | .friday => getNextSecondOrFourthFriday
  | .demo => getNextSecondSaturday
  | .checkIn => getNextSecondOrFourthWednesday
  | .monthEnd => getNextMonthEnd

/-- The reconciliation day walk of `checkMissedJobs` for one weekday job type:
from the heartbeat's midnight while `candidate < now`, a qualifying day is
mapped through `getNext` and recorded as missed when the resulting instant
lies strictly between the last heartbeat and `now`. -/
def missedWalk (jt : JobType) (lhbSec : Nat) (now : DT) (c : CivilDate) :
    Nat → Ledger → Ledger
  | 0, L => L
  | fuel + 1, L =>
    if midnightSec c < toSec now then
      missedWalk jt lhbSec now (nextDay c)
        fuel
        (if jobChecker jt c then
          let st := toSec (jobGetNext jt ⟨c, 0, 0, 0⟩ now)
          if lhbSec < st ∧ st < toSec now then recordMissedJob jt st L else L
        else L)
    else L

/-- The separate month-end day walk of `checkMissedJobs`: the instant is the
candidate day at 9:00 directly, without a `getNext` call. -/
def monthEndWalk (lhbSec : Nat) (now : DT) (c : CivilDate) :
    Nat → Ledger → Ledger
  | 0, L => L
  | fuel + 1, L =>
    if midnightSec c < toSec now then
      monthEndWalk lhbSec now (nextDay c)
        fuel
        (if isLastDayOfMonth c then
          let st := toSec ⟨c, 9, 0, 0⟩
          if lhbSec < st ∧ st < toSec now then recordMissedJob .monthEnd st L else L
        else L)
    else L

/-- Fuel sufficient for a reconciliation walk: one step per calendar day from
the start day up to `now`'s day. -/
def walkFuel (c : CivilDate) (now : DT) : Nat :=
  toSec now / 86400 + 1 - dayNumber c

/-- Embedding of `checkMissedJobs` from `src/scheduler.ts`: the startup
reconciliation.  Without recorded state it only establishes a heartbeat;
with a downtime below 60 seconds it returns unchanged; otherwise it walks
the four weekday job types and then month-end, and closes with a heartbeat. -/
def checkMissedJobs (now : DT) (L : Ledger) : Ledger :=
  match L.state with
  | none => updateHeartbeat now L
  | some st =>
    if toSec now - toSec st.lastHeartbeat < 60 then L
    else
      let lhb := toSec st.lastHeartbeat
      let c0 := st.lastHeartbeat.date
      let fuel := walkFuel c0 now
      let L1 := missedWalk .monday lhb now c0 fuel L
      let L2 := missedWalk .friday lhb now c0 fuel L1
      let L3 := missedWalk .demo lhb now c0 fuel L2
      let L4 := missedWalk .checkIn lhb now c0 fuel L3
      let L5 := monthEndWalk lhb now c0 fuel L4
      updateHeartbeat now L5

/-- The public ledger mutations, as an operation alphabet. -/
inductive Op where
  | fired (jt : JobType) (scheduledFor : Nat)
  | skipped (runId : Nat) (reason : String) (now : Nat)
  | completed (runId : Nat) (messageId : Option String) (now : Nat)
  | failedOp (runId : Nat) (err : String) (now : Nat)
  | missed (jt : JobType) (scheduledFor : Nat)
  | manual (jt : JobType) (messageId : Option String) (now : Nat)

/-- Effect of one public ledger operation. -/
def applyOp (L : Ledger) : Op → Ledger
  | .fired jt sf => (recordJobFired jt sf L).2
  | .skipped runId r n => recordJobSkipped runId r n L
  | .completed runId m n => recordJobCompleted runId m n L
  | .failedOp runId e n => recordJobFailed runId e n L
  | .missed jt sf => recordMissedJob jt sf L
  | .manual jt m n => (recordManualTrigger jt m n L).2

/-- Ledger produced by a sequence of public operations from the empty store. -/
def applyOps (ops : List Op) : Ledger :=
  ops.foldl applyOp Ledger.init

/-- States reachable through the public ledger operations. -/
def ReachableLedger (L : Ledger) : Prop :=
  ∃ ops, applyOps ops = L

/-- The accumulator-passing form of `selectMissed`'s fold. -/
def selectGo (jt : JobType) (a : Option JobRun) (l : List JobRun) : Option JobRun :=
  l.foldl
    (fun best r =>
      if r.jobType = jt ∧ r.status = .missed ∧ laterThan best r then some r else best)
    a

/-- Arithmetic characterization of the leap-year flag. -/
theorem isLeap_iff (y : Nat) :
    isLeap y = true ↔ ((y % 4 = 0 ∧ ¬ y % 100 = 0) ∨ y % 400 = 0) := by
  simp [isLeap]

example : weekday ⟨2026, 2, 2⟩ = 1 := by decide

example : weekday ⟨2026, 2, 13⟩ = 5 := by decide

example : nextDay ⟨2026, 2, 28⟩ = ⟨2026, 3, 1⟩ := by decide

example : nextDay ⟨2024, 2, 28⟩ = ⟨2024, 2, 29⟩ := by decide

example : prevDay ⟨2026, 3, 1⟩ = ⟨2026, 2, 28⟩ := by decide

example : prevDay ⟨2026, 1, 1⟩ = ⟨2025, 12, 31⟩ := by decide

/-- The cumulative month table steps by exactly the month length. -/
theorem monthOffset_succ (l : Bool) :
    ∀ m, m < 12 → 1 ≤ m → monthOffset l (m + 1) = monthOffset l m + monthLen l m := by
  cases l <;> decide

/-- Month lengths range over 28..31 for real months. -/
theorem monthLen_bounds (l : Bool) :
    ∀ m, m < 13 → 1 ≤ m → 28 ≤ monthLen l m ∧ monthLen l m ≤ 31 := by
  cases l <;> decide

/-- The year-count of days steps by 365 plus the leap correction. -/
theorem daysBeforeYear_succ (y : Nat) (hy : 1 ≤ y) :
    daysBeforeYear y = daysBeforeYear (y - 1) + 365 + (if isLeap y then 1 else 0) := by
  obtain ⟨z, rfl⟩ : ∃ z, y = z + 1 := ⟨y - 1, by omega⟩
  have h4 := Nat.succ_div z 4
  have h100 := Nat.succ_div z 100
  have h400 := Nat.succ_div z 400
  by_cases h : ((z + 1) % 4 = 0 ∧ ¬ (z + 1) % 100 = 0) ∨ (z + 1) % 400 = 0
  · rw [if_pos ((isLeap_iff (z + 1)).mpr h)]
    unfold daysBeforeYear
    rw [h4, h100, h400]
    simp only [Nat.add_sub_cancel]
    split_ifs <;> omega
  · rw [if_neg (fun hc => h ((isLeap_iff (z + 1)).mp hc))]
    unfold daysBeforeYear
    rw [h4, h100, h400]
    simp only [Nat.add_sub_cancel]
    split_ifs <;> omega

/-- Stepping one calendar day preserves date validity. -/
theorem validDate_nextDay {x : CivilDate} (h : ValidDate x) : ValidDate (nextDay x) := by
  obtain ⟨h1, h2, h3, h4, h5⟩ := h
  unfold nextDay
  split
  · show 1 ≤ x.year ∧ 1 ≤ x.month ∧ x.month ≤ 12 ∧ 1 ≤ x.day + 1 ∧
      x.day + 1 ≤ monthLen (isLeap x.year) x.month
    omega
  · rename_i hd
    split
    · rename_i hm
      show 1 ≤ x.year ∧ 1 ≤ x.month + 1 ∧ x.month + 1 ≤ 12 ∧ 1 ≤ 1 ∧
        1 ≤ monthLen (isLeap x.year) (x.month + 1)
      have := monthLen_bounds (isLeap x.year) (x.month + 1) (by omega) (by omega)
      omega
    · show 1 ≤ x.year + 1 ∧ 1 ≤ 1 ∧ 1 ≤ 12 ∧ 1 ≤ 1 ∧
        1 ≤ monthLen (isLeap (x.year + 1)) 1
      have := monthLen_bounds (isLeap (x.year + 1)) 1 (by omega) (by omega)
      omega

/-- Stepping one calendar day advances the serial day number by one. -/
theorem dayNumber_nextDay {x : CivilDate} (h : ValidDate x) :
    dayNumber (nextDay x) = dayNumber x + 1 := by
  obtain ⟨h1, h2, h3, h4, h5⟩ := h
  unfold nextDay
  split
  · show daysBeforeYear (x.year - 1) + monthOffset (isLeap x.year) x.month + (x.day + 1) =
      daysBeforeYear (x.year - 1) + monthOffset (isLeap x.year) x.month + x.day + 1
    omega
  · rename_i hd
    split
    · rename_i hm
      have hstep := monthOffset_succ (isLeap x.year) x.month hm h2
      show daysBeforeYear (x.year - 1) + monthOffset (isLeap x.year) (x.month + 1) + 1 =
        daysBeforeYear (x.year - 1) + monthOffset (isLeap x.year) x.month + x.day + 1
      omega
    · rename_i hm
      have hm12 : x.month = 12 := by omega
      have hlen : monthLen (isLeap x.year) 12 = 31 := rfl
      have hday : x.day = 31 := by rw [hm12] at h5 hd; omega
      have hy : daysBeforeYear x.year =
          daysBeforeYear (x.year - 1) + 365 + (if isLeap x.year then 1 else 0) :=
        daysBeforeYear_succ x.year h1
      have hoff12 : monthOffset (isLeap x.year) 12 =
          334 + (if isLeap x.year then 1 else 0) := by
        cases hL : isLeap x.year <;> simp [monthOffset, hL]
      have hoff1 : monthOffset (isLeap (x.year + 1)) 1 = 0 := by
        cases hL : isLeap (x.year + 1) <;> simp [monthOffset, hL]
      show daysBeforeYear (x.year + 1 - 1) + monthOffset (isLeap (x.year + 1)) 1 + 1 =
        daysBeforeYear (x.year - 1) + monthOffset (isLeap x.year) x.month + x.day + 1

      rw [hoff1, hm12, hoff12, hday]
      have hy1 : x.year + 1 - 1 = x.year := by omega
      rw [hy1, hy]
      omega

/-- Adding days preserves validity. -/
theorem validDate_addDays {x : CivilDate} (h : ValidDate x) (n : Nat) :
    ValidDate (addDays x n) := by
  induction n generalizing x with
  | zero => exact h
  | succ n ih => exact ih (validDate_nextDay h)

/-- Adding `n` days advances the serial day number by `n`. -/
theorem dayNumber_addDays {x : CivilDate} (h : ValidDate x) (n : Nat) :
    dayNumber (addDays x n) = dayNumber x + n := by
  induction n generalizing x with
  | zero => rfl
  | succ n ih =>
    show dayNumber (addDays (nextDay x) n) = dayNumber x + (n + 1)
    rw [ih (validDate_nextDay h), dayNumber_nextDay h]
    omega

/-- Weekdays advance cyclically with day addition. -/
theorem weekday_addDays {x : CivilDate} (h : ValidDate x) (n : Nat) :
    weekday (addDays x n) = (weekday x + n) % 7 := by
  unfold weekday
  rw [dayNumber_addDays h n]
  omega

/-- Splitting a day addition into two steps. -/
theorem addDays_add (x : CivilDate) (a b : Nat) :
    addDays x (a + b) = addDays (addDays x a) b := by
  induction a generalizing x with
  | zero =>
    rw [Nat.zero_add]
    rfl
  | succ a ih =>
    have h1 : a + 1 + b = (a + b) + 1 := by omega
    rw [h1]
    show addDays (nextDay x) (a + b) = addDays (addDays (nextDay x) a) b
    exact ih (nextDay x)

/-- Adding days without crossing the month boundary. -/
theorem addDays_nowrap {x : CivilDate} (h : ValidDate x) (k : Nat)
    (hk : x.day + k ≤ monthLen (isLeap x.year) x.month) :
    addDays x k = ⟨x.year, x.month, x.day + k⟩ := by
  induction k generalizing x with
  | zero => rfl
  | succ k ih =>
    obtain ⟨h1, h2, h3, h4, h5⟩ := h
    have hcond : x.day < monthLen (isLeap x.year) x.month := by omega
    have hstep : nextDay x = ⟨x.year, x.month, x.day + 1⟩ := by
      unfold nextDay
      rw [if_pos hcond]
    show addDays (nextDay x) k = ⟨x.year, x.month, x.day + (k + 1)⟩
    rw [hstep]
    have hv : ValidDate (⟨x.year, x.month, x.day + 1⟩ : CivilDate) := by
      show 1 ≤ x.year ∧ 1 ≤ x.month ∧ x.month ≤ 12 ∧ 1 ≤ x.day + 1 ∧
        x.day + 1 ≤ monthLen (isLeap x.year) x.month
      omega
    have hk2 : (⟨x.year, x.month, x.day + 1⟩ : CivilDate).day + k ≤
        monthLen (isLeap (⟨x.year, x.month, x.day + 1⟩ : CivilDate).year)
          (⟨x.year, x.month, x.day + 1⟩ : CivilDate).month := by
      show x.day + 1 + k ≤ monthLen (isLeap x.year) x.month
      omega
    rw [ih hv hk2]
    have : x.day + 1 + k = x.day + (k + 1) := by omega
    rw [this]

/-- Stepping exactly past the end of a non-December month lands on its successor's first day. -/
theorem addDays_to_nextMonth {x : CivilDate} (h : ValidDate x) (hm : x.month < 12) :
    addDays x (monthLen (isLeap x.year) x.month - x.day + 1) =
      ⟨x.year, x.month + 1, 1⟩ := by
  obtain ⟨h1, h2, h3, h4, h5⟩ := h
  have hsplit : monthLen (isLeap x.year) x.month - x.day + 1 =
      (monthLen (isLeap x.year) x.month - x.day) + 1 := by omega
  rw [hsplit, addDays_add]
  have harg : x.day + (monthLen (isLeap x.year) x.month - x.day) ≤
      monthLen (isLeap x.year) x.month := by omega
  rw [addDays_nowrap ⟨h1, h2, h3, h4, h5⟩ (monthLen (isLeap x.year) x.month - x.day) harg]
  show nextDay ⟨x.year, x.month, x.day + (monthLen (isLeap x.year) x.month - x.day)⟩ = _
  unfold nextDay
  have hday : x.day + (monthLen (isLeap x.year) x.month - x.day) =
      monthLen (isLeap x.year) x.month := by omega
  simp only [hday]
  have hc1 : ¬ monthLen (isLeap x.year) x.month < monthLen (isLeap x.year) x.month := by omega
  rw [if_neg hc1, if_pos hm]

/-- Day-of-month after a wrap of at most 28 days into the following month. -/
theorem addDays_wrap_day {x : CivilDate} (h : ValidDate x) (k : Nat)
    (hover : monthLen (isLeap x.year) x.month < x.day + k)
    (hsmall : x.day + k - monthLen (isLeap x.year) x.month ≤ 28) :
    (addDays x k).day = x.day + k - monthLen (isLeap x.year) x.month := by
  obtain ⟨h1, h2, h3, h4, h5⟩ := h
  set L := monthLen (isLeap x.year) x.month with hL
  have hsplit : addDays x k = addDays (addDays x (L - x.day + 1)) (x.day + k - L - 1) := by
    rw [← addDays_add]
    congr 1
    omega
  rw [hsplit]
  by_cases hm : x.month < 12
  · rw [addDays_to_nextMonth ⟨h1, h2, h3, h4, h5⟩ hm]
    have hm13 : x.month + 1 < 13 := by omega
    have hm1 : 1 ≤ x.month + 1 := by omega
    have hbound := monthLen_bounds (isLeap x.year) (x.month + 1) hm13 hm1
    have hv : ValidDate (⟨x.year, x.month + 1, 1⟩ : CivilDate) := by
      show 1 ≤ x.year ∧ 1 ≤ x.month + 1 ∧ x.month + 1 ≤ 12 ∧ 1 ≤ 1 ∧
        1 ≤ monthLen (isLeap x.year) (x.month + 1)
      omega
    have harg : (1 : Nat) + (x.day + k - L - 1) ≤ monthLen (isLeap x.year) (x.month + 1) := by
      omega
    rw [addDays_nowrap hv (x.day + k - L - 1) harg]
    show 1 + (x.day + k - L - 1) = x.day + k - L
    omega
  · have hm12 : x.month = 12 := by omega
    have hfirst : addDays x (L - x.day + 1) = ⟨x.year + 1, 1, 1⟩ := by
      have hsp2 : L - x.day + 1 = (L - x.day) + 1 := by omega
      rw [hsp2, addDays_add]
      have harg0 : x.day + (L - x.day) ≤ monthLen (isLeap x.year) x.month := by omega
      rw [addDays_nowrap ⟨h1, h2, h3, h4, h5⟩ (L - x.day) harg0]
      show nextDay ⟨x.year, x.month, x.day + (L - x.day)⟩ = _
      unfold nextDay
      have hday : x.day + (L - x.day) = L := by omega
      simp only [hday]
      have hc1 : ¬ L < monthLen (isLeap x.year) x.month := by omega
      have hc2 : ¬ x.month < 12 := by omega
      rw [if_neg hc1, if_neg hc2]
    rw [hfirst]
    have h113 : (1 : Nat) < 13 := by omega
    have h11 : (1 : Nat) ≤ 1 := by omega
    have hbound := monthLen_bounds (isLeap (x.year + 1)) 1 h113 h11
    have hv : ValidDate (⟨x.year + 1, 1, 1⟩ : CivilDate) := by
      show 1 ≤ x.year + 1 ∧ 1 ≤ 1 ∧ 1 ≤ 12 ∧ 1 ≤ 1 ∧
        1 ≤ monthLen (isLeap (x.year + 1)) 1
      omega
    have harg : (1 : Nat) + (x.day + k - L - 1) ≤ monthLen (isLeap (x.year + 1)) 1 := by
      omega
    rw [addDays_nowrap hv (x.day + k - L - 1) harg]
    show 1 + (x.day + k - L - 1) = x.day + k - L
    omega

example : isFirstOrThirdMonday ⟨2026, 2, 2⟩ := by decide

example : ¬ isFirstOrThirdMonday ⟨2026, 2, 9⟩ := by decide

example : isSecondOrFourthFriday ⟨2026, 2, 13⟩ := by decide

example : isLastDayOfMonth ⟨2026, 2, 28⟩ := by decide

example : ¬ isLastDayOfMonth ⟨2026, 2, 27⟩ := by decide

/-- The forward scan succeeds whenever some day within the fuel qualifies. -/
theorem searchDate_isSome (p : CivilDate → Prop) [DecidablePred p] :
    ∀ (fuel : Nat) (c : CivilDate), (∃ i, i < fuel ∧ p (addDays c i)) →
      ∃ m, searchDate p c fuel = some m := by
  intro fuel
  induction fuel with
  | zero =>
    intro c ⟨i, hi, _⟩
    omega
  | succ fuel ih =>
    intro c ⟨i, hi, hp⟩
    by_cases h : p c
    · exact ⟨c, by unfold searchDate; rw [if_pos h]⟩
    · have hnext : ∃ i2, i2 < fuel ∧ p (addDays (nextDay c) i2) := by
        cases i with
        | zero => exact absurd hp h
        | succ i => exact ⟨i, by omega, hp⟩
      obtain ⟨m, hm⟩ := ih (nextDay c) hnext
      exact ⟨m, by unfold searchDate; rw [if_neg h]; exact hm⟩

/-- A successful forward scan returns a qualifying day. -/
theorem searchDate_sound (p : CivilDate → Prop) [DecidablePred p] :
    ∀ (fuel : Nat) (c m : CivilDate), searchDate p c fuel = some m → p m := by
  intro fuel
  induction fuel with
  | zero =>
    intro c m hm
    simp [searchDate] at hm
  | succ fuel ih =>
    intro c m hm
    unfold searchDate at hm
    by_cases h : p c
    · rw [if_pos h] at hm
      cases hm
      exact h
    · rw [if_neg h] at hm
      exact ih (nextDay c) m hm

/-- A successful backward scan returns a qualifying day lying 1..fuel days back. -/
theorem backSearch_sound (p : CivilDate → Prop) [DecidablePred p] :
    ∀ (fuel : Nat) (c m : CivilDate), backSearch p c fuel = some m →
      p m ∧ ∃ i, 1 ≤ i ∧ i ≤ fuel ∧ m = subDays c i := by
  intro fuel
  induction fuel with
  | zero =>
    intro c m hm
    simp [backSearch] at hm
  | succ fuel ih =>
    intro c m hm
    unfold backSearch at hm
    by_cases h : p (prevDay c)
    · rw [if_pos h] at hm
      cases hm
      exact ⟨h, 1, by omega, by omega, rfl⟩
    · rw [if_neg h] at hm
      obtain ⟨hp, i, hi1, hi2, heq⟩ := ih (prevDay c) m hm
      exact ⟨hp, i + 1, by omega, by omega, heq⟩

/-- The backward scan fails when no day within the fuel qualifies. -/
theorem backSearch_none (p : CivilDate → Prop) [DecidablePred p] :
    ∀ (fuel : Nat) (c : CivilDate), (∀ i, 1 ≤ i → i ≤ fuel → ¬ p (subDays c i)) →
      backSearch p c fuel = none := by
  intro fuel
  induction fuel with
  | zero => intro c _; rfl
  | succ fuel ih =>
    intro c hnone
    unfold backSearch
    rw [if_neg (show ¬ p (prevDay c) from hnone 1 (by omega) (by omega))]
    apply ih
    intro i hi1 hi2
    exact hnone (i + 1) (by omega) (by omega)

/-- Characterization of `isLastDayOfMonth` on valid dates. -/
theorem isLastDayOfMonth_iff {z : CivilDate} (hv : ValidDate z) :
    isLastDayOfMonth z ↔ z.day = monthLen (isLeap z.year) z.month := by
  obtain ⟨h1, h2, h3, h4, h5⟩ := hv
  unfold isLastDayOfMonth nextDay
  split
  · rename_i h
    show z.day + 1 = 1 ↔ z.day = monthLen (isLeap z.year) z.month
    omega
  · rename_i h
    split
    · show (1 : Nat) = 1 ↔ z.day = monthLen (isLeap z.year) z.month
      omega
    · show (1 : Nat) = 1 ↔ z.day = monthLen (isLeap z.year) z.month
      omega

/-- Any valid Monday sees a first-or-third Monday within 14 further days. -/
theorem exists_monday_occ {x : CivilDate} (hv : ValidDate x) (hw : weekday x = 1) :
    ∃ k, k ≤ 14 ∧ isFirstOrThirdMonday (addDays x k) := by
  have hv' : ValidDate x := hv
  obtain ⟨h1, h2, h3, h4, h5⟩ := hv
  have hb := monthLen_bounds (isLeap x.year) x.month (by omega) (by omega)
  by_cases ha : x.day ≤ 7 ∨ (15 ≤ x.day ∧ x.day ≤ 21)
  · refine ⟨0, by omega, ?_⟩
    show isFirstOrThirdMonday x
    exact ⟨hw, by omega⟩
  · by_cases hbcase : 8 ≤ x.day ∧ x.day ≤ 14
    · have hk7 : x.day + 7 ≤ monthLen (isLeap x.year) x.month := by omega
      have heq := addDays_nowrap hv' 7 hk7
      have hday : (addDays x 7).day = x.day + 7 := by rw [heq]
      have hwk : weekday (addDays x 7) = 1 := by
        rw [weekday_addDays hv' 7, hw]
      exact ⟨7, by omega, hwk, by omega⟩
    · have hc : 22 ≤ x.day := by omega
      by_cases hfit : x.day + 7 ≤ monthLen (isLeap x.year) x.month
      · have hover : monthLen (isLeap x.year) x.month < x.day + 14 := by omega
        have hsmall : x.day + 14 - monthLen (isLeap x.year) x.month ≤ 28 := by omega
        have hday := addDays_wrap_day hv' 14 hover hsmall
        have hwk : weekday (addDays x 14) = 1 := by
          rw [weekday_addDays hv' 14, hw]
        exact ⟨14, by omega, hwk, by omega⟩
      · have hover : monthLen (isLeap x.year) x.month < x.day + 7 := by omega
        have hsmall : x.day + 7 - monthLen (isLeap x.year) x.month ≤ 28 := by omega
        have hday := addDays_wrap_day hv' 7 hover hsmall
        have hwk : weekday (addDays x 7) = 1 := by
          rw [weekday_addDays hv' 7, hw]
        exact ⟨7, by omega, hwk, by omega⟩

/-- Any valid date of the right weekday sees a day-of-month in 8..14 or 22..28
of the same weekday within 14 further days. -/
theorem exists_range24_occ {x : CivilDate} (hv : ValidDate x) (w : Nat) (hw : weekday x = w) :
    ∃ k, k ≤ 14 ∧ weekday (addDays x k) = w ∧
      ((8 ≤ (addDays x k).day ∧ (addDays x k).day ≤ 14) ∨
        (22 ≤ (addDays x k).day ∧ (addDays x k).day ≤ 28)) := by
  have hv' : ValidDate x := hv
  have hw7 : w < 7 := by
    rw [← hw]
    unfold weekday
    omega
  obtain ⟨h1, h2, h3, h4, h5⟩ := hv
  have hb := monthLen_bounds (isLeap x.year) x.month (by omega) (by omega)
  by_cases ha : (8 ≤ x.day ∧ x.day ≤ 14) ∨ (22 ≤ x.day ∧ x.day ≤ 28)
  · refine ⟨0, by omega, ?_, ?_⟩
    · show weekday x = w
      exact hw
    · show (8 ≤ x.day ∧ x.day ≤ 14) ∨ (22 ≤ x.day ∧ x.day ≤ 28)
      exact ha
  · by_cases hlow : x.day ≤ 21
    · have hk7 : x.day + 7 ≤ monthLen (isLeap x.year) x.month := by omega
      have heq := addDays_nowrap hv' 7 hk7
      have hday : (addDays x 7).day = x.day + 7 := by rw [heq]
      have hwk : weekday (addDays x 7) = w := by
        rw [weekday_addDays hv' 7, hw]
        omega
      exact ⟨7, by omega, hwk, by omega⟩
    · have hhigh : 29 ≤ x.day := by omega
      have hover : monthLen (isLeap x.year) x.month < x.day + 14 := by omega
      have hsmall : x.day + 14 - monthLen (isLeap x.year) x.month ≤ 28 := by omega
      have hday := addDays_wrap_day hv' 14 hover hsmall
      have hwk : weekday (addDays x 14) = w := by
        rw [weekday_addDays hv' 14, hw]
        omega
      exact ⟨14, by omega, hwk, by omega⟩

/-- Any valid Saturday sees a second Saturday within 28 further days. -/
theorem exists_saturday_occ {x : CivilDate} (hv : ValidDate x) (hw : weekday x = 6) :
    ∃ k, k ≤ 28 ∧ isSecondSaturday (addDays x k) := by
  have hv' : ValidDate x := hv
  obtain ⟨h1, h2, h3, h4, h5⟩ := hv
  have hb := monthLen_bounds (isLeap x.year) x.month (by omega) (by omega)
  have hwk : ∀ k : Nat, k % 7 = 0 → weekday (addDays x k) = 6 := by
    intro k hk
    rw [weekday_addDays hv' k, hw]
    omega
  by_cases ha : 8 ≤ x.day ∧ x.day ≤ 14
  · refine ⟨0, by omega, ?_⟩
    show isSecondSaturday x
    exact ⟨hw, by omega⟩
  · by_cases hlow : x.day ≤ 7
    · have hk7 : x.day + 7 ≤ monthLen (isLeap x.year) x.month := by omega
      have heq := addDays_nowrap hv' 7 hk7
      have hday : (addDays x 7).day = x.day + 7 := by rw [heq]
      exact ⟨7, by omega, hwk 7 (by omega), by omega⟩
    · by_cases hmid : x.day ≤ 21
      · have hover : monthLen (isLeap x.year) x.month < x.day + 21 := by omega
        have hsmall : x.day + 21 - monthLen (isLeap x.year) x.month ≤ 28 := by omega
        have hday := addDays_wrap_day hv' 21 hover hsmall
        by_cases hok : 8 ≤ x.day + 21 - monthLen (isLeap x.year) x.month
        · exact ⟨21, by omega, hwk 21 (by omega), by omega⟩
        · have hover2 : monthLen (isLeap x.year) x.month < x.day + 28 := by omega
          have hsmall2 : x.day + 28 - monthLen (isLeap x.year) x.month ≤ 28 := by omega
          have hday2 := addDays_wrap_day hv' 28 hover2 hsmall2
          exact ⟨28, by omega, hwk 28 (by omega), by omega⟩
      · by_cases hmid2 : x.day ≤ 28
        · have hover : monthLen (isLeap x.year) x.month < x.day + 14 := by omega
          have hsmall : x.day + 14 - monthLen (isLeap x.year) x.month ≤ 28 := by omega
          have hday := addDays_wrap_day hv' 14 hover hsmall
          by_cases hok : 8 ≤ x.day + 14 - monthLen (isLeap x.year) x.month
          · exact ⟨14, by omega, hwk 14 (by omega), by omega⟩
          · have hover2 : monthLen (isLeap x.year) x.month < x.day + 21 := by omega
            have hsmall2 : x.day + 21 - monthLen (isLeap x.year) x.month ≤ 28 := by omega
            have hday2 := addDays_wrap_day hv' 21 hover2 hsmall2
            exact ⟨21, by omega, hwk 21 (by omega), by omega⟩
        · have hhigh : 29 ≤ x.day := by omega
          have hover : monthLen (isLeap x.year) x.month < x.day + 7 := by omega
          have hsmall : x.day + 7 - monthLen (isLeap x.year) x.month ≤ 28 := by omega
          have hday := addDays_wrap_day hv' 7 hover hsmall
          by_cases hok : 8 ≤ x.day + 7 - monthLen (isLeap x.year) x.month
          · exact ⟨7, by omega, hwk 7 (by omega), by omega⟩
          · have hover2 : monthLen (isLeap x.year) x.month < x.day + 14 := by omega
            have hsmall2 : x.day + 14 - monthLen (isLeap x.year) x.month ≤ 28 := by omega
            have hday2 := addDays_wrap_day hv' 14 hover2 hsmall2
            exact ⟨14, by omega, hwk 14 (by omega), by omega⟩

/-- Any valid date sees the last day of its month within 30 further days. -/
theorem exists_monthEnd_occ {x : CivilDate} (hv : ValidDate x) :
    ∃ k, k ≤ 30 ∧ isLastDayOfMonth (addDays x k) := by
  have hv' : ValidDate x := hv
  obtain ⟨h1, h2, h3, h4, h5⟩ := hv
  have hb := monthLen_bounds (isLeap x.year) x.month (by omega) (by omega)
  have hk : x.day + (monthLen (isLeap x.year) x.month - x.day) ≤
      monthLen (isLeap x.year) x.month := by omega
  have heq := addDays_nowrap hv' (monthLen (isLeap x.year) x.month - x.day) hk
  refine ⟨monthLen (isLeap x.year) x.month - x.day, by omega, ?_⟩
  rw [heq]
  have hvz : ValidDate (⟨x.year, x.month,
      x.day + (monthLen (isLeap x.year) x.month - x.day)⟩ : CivilDate) := by
    show 1 ≤ x.year ∧ 1 ≤ x.month ∧ x.month ≤ 12 ∧
      1 ≤ x.day + (monthLen (isLeap x.year) x.month - x.day) ∧
      x.day + (monthLen (isLeap x.year) x.month - x.day) ≤ monthLen (isLeap x.year) x.month
    omega
  rw [isLastDayOfMonth_iff hvz]
  show x.day + (monthLen (isLeap x.year) x.month - x.day) = monthLen (isLeap x.year) x.month
  omega

/-- A first-or-third Monday exists within any 31-day window. -/
theorem exists_firstThirdMonday_31 {x : CivilDate} (hv : ValidDate x) :
    ∃ i, i < 31 ∧ isFirstOrThirdMonday (addDays x i) := by
  have hw7 : weekday x < 7 := by unfold weekday; omega
  have hv1 : ValidDate (addDays x ((1 + 7 - weekday x) % 7)) :=
    validDate_addDays hv ((1 + 7 - weekday x) % 7)
  have hw1 : weekday (addDays x ((1 + 7 - weekday x) % 7)) = 1 := by
    rw [weekday_addDays hv ((1 + 7 - weekday x) % 7)]
    omega
  obtain ⟨k, hk, hp⟩ := exists_monday_occ hv1 hw1
  refine ⟨(1 + 7 - weekday x) % 7 + k, by omega, ?_⟩
  rw [addDays_add]
  exact hp

/-- A second-or-fourth Friday exists within any 31-day window. -/
theorem exists_secondFourthFriday_31 {x : CivilDate} (hv : ValidDate x) :
    ∃ i, i < 31 ∧ isSecondOrFourthFriday (addDays x i) := by
  have hw7 : weekday x < 7 := by unfold weekday; omega
  have hv1 : ValidDate (addDays x ((5 + 7 - weekday x) % 7)) :=
    validDate_addDays hv ((5 + 7 - weekday x) % 7)
  have hw1 : weekday (addDays x ((5 + 7 - weekday x) % 7)) = 5 := by
    rw [weekday_addDays hv ((5 + 7 - weekday x) % 7)]
    omega
  obtain ⟨k, hk, hwk, hdy⟩ := exists_range24_occ hv1 5 hw1
  refine ⟨(5 + 7 - weekday x) % 7 + k, by omega, ?_⟩
  rw [addDays_add]
  exact ⟨hwk, hdy⟩

/-- A second-or-fourth Wednesday exists within any 31-day window. -/
theorem exists_secondFourthWednesday_31 {x : CivilDate} (hv : ValidDate x) :
    ∃ i, i < 31 ∧ isSecondOrFourthWednesday (addDays x i) := by
  have hw7 : weekday x < 7 := by unfold weekday; omega
  have hv1 : ValidDate (addDays x ((3 + 7 - weekday x) % 7)) :=
    validDate_addDays hv ((3 + 7 - weekday x) % 7)
  have hw1 : weekday (addDays x ((3 + 7 - weekday x) % 7)) = 3 := by
    rw [weekday_addDays hv ((3 + 7 - weekday x) % 7)]
    omega
  obtain ⟨k, hk, hwk, hdy⟩ := exists_range24_occ hv1 3 hw1
  refine ⟨(3 + 7 - weekday x) % 7 + k, by omega, ?_⟩
  rw [addDays_add]
  exact ⟨hwk, hdy⟩

/-- A second Saturday exists within any 45-day window. -/
theorem exists_secondSaturday_45 {x : CivilDate} (hv : ValidDate x) :
    ∃ i, i < 45 ∧ isSecondSaturday (addDays x i) := by
  have hw7 : weekday x < 7 := by unfold weekday; omega
  have hv1 : ValidDate (addDays x ((6 + 7 - weekday x) % 7)) :=
    validDate_addDays hv ((6 + 7 - weekday x) % 7)
  have hw1 : weekday (addDays x ((6 + 7 - weekday x) % 7)) = 6 := by
    rw [weekday_addDays hv ((6 + 7 - weekday x) % 7)]
    omega
  obtain ⟨k, hk, hp⟩ := exists_saturday_occ hv1 hw1
  refine ⟨(6 + 7 - weekday x) % 7 + k, by omega, ?_⟩
  rw [addDays_add]
  exact hp

/-- A month-end day exists within any 32-day window. -/
theorem exists_monthEnd_32 {x : CivilDate} (hv : ValidDate x) :
    ∃ i, i < 32 ∧ isLastDayOfMonth (addDays x i) := by
  obtain ⟨k, hk, hp⟩ := exists_monthEnd_occ hv
  exact ⟨k, by omega, hp⟩

/-- Validity of the five scan-start dates. -/
theorem validDate_mondayStart {d n : DT} (h : ValidDate d.date) :
    ValidDate (mondayStart d n) := by
  unfold mondayStart
  split
  · exact validDate_nextDay h
  · exact h

theorem validDate_fridayStart {d n : DT} (h : ValidDate d.date) :
    ValidDate (fridayStart d n) := by
  unfold fridayStart
  split
  · exact validDate_nextDay h
  · exact h

theorem validDate_wednesdayStart {d n : DT} (h : ValidDate d.date) :
    ValidDate (wednesdayStart d n) := by
  unfold wednesdayStart
  split
  · exact validDate_nextDay h
  · exact h

theorem validDate_saturdayStart {d n : DT} (h : ValidDate d.date) :
    ValidDate (saturdayStart d n) := by
  unfold saturdayStart
  split
  · exact validDate_nextDay h
  · exact h

theorem validDate_monthEndStart {d n : DT} (h : ValidDate d.date) :
    ValidDate (monthEndStart d n) := by
  unfold monthEndStart
  split
  · exact validDate_nextDay h
  · exact h

/-- C9: for every job type and every valid starting date (and any ambient
clock), the forward day-by-day scan of the `getNext*` functions finds a
qualifying date within its fixed horizon (31 days for the weekday-based
rules, 45 for Demo, 32 for MonthEnd), so each function returns a date found
by the scan and the exhausted-horizon fallback branch returning `from` at the
configured time is unreachable. -/
theorem C9_horizon_fallback_unreachable (dfrom now : DT) (hv : ValidDate dfrom.date) :
    (∃ c, searchDate isFirstOrThirdMonday (mondayStart dfrom now) 31 = some c ∧
      getNextFirstOrThirdMonday dfrom now = ⟨c, 9, 0, 0⟩) ∧
    (∃ c, searchDate isSecondOrFourthFriday (fridayStart dfrom now) 31 = some c ∧
      getNextSecondOrFourthFriday dfrom now = ⟨c, 15, 30, 0⟩) ∧
    (∃ c, searchDate isSecondOrFourthWednesday (wednesdayStart dfrom now) 31 = some c ∧
      getNextSecondOrFourthWednesday dfrom now = ⟨c, 9, 0, 0⟩) ∧
    (∃ c, searchDate isSecondSaturday (saturdayStart dfrom now) 45 = some c ∧
      getNextSecondSaturday dfrom now = ⟨c, 10, 0, 0⟩) ∧
    (∃ c, searchDate isLastDayOfMonth (monthEndStart dfrom now) 32 = some c ∧
      getNextMonthEnd dfrom now = ⟨c, 9, 0, 0⟩) := by
  refine ⟨?_, ?_, ?_, ?_, ?_⟩
  · obtain ⟨m, hm⟩ := searchDate_isSome isFirstOrThirdMonday 31 (mondayStart dfrom now)
      (exists_firstThirdMonday_31 (validDate_mondayStart hv))
    exact ⟨m, hm, by unfold getNextFirstOrThirdMonday; rw [hm]⟩
  · obtain ⟨m, hm⟩ := searchDate_isSome isSecondOrFourthFriday 31 (fridayStart dfrom now)
      (exists_secondFourthFriday_31 (validDate_fridayStart hv))
    exact ⟨m, hm, by unfold getNextSecondOrFourthFriday; rw [hm]⟩
  · obtain ⟨m, hm⟩ := searchDate_isSome isSecondOrFourthWednesday 31 (wednesdayStart dfrom now)
      (exists_secondFourthWednesday_31 (validDate_wednesdayStart hv))
    exact ⟨m, hm, by unfold getNextSecondOrFourthWednesday; rw [hm]⟩
  · obtain ⟨m, hm⟩ := searchDate_isSome isSecondSaturday 45 (saturdayStart dfrom now)
      (exists_secondSaturday_45 (validDate_saturdayStart hv))
    exact ⟨m, hm, by unfold getNextSecondSaturday; rw [hm]⟩
  · obtain ⟨m, hm⟩ := searchDate_isSome isLastDayOfMonth 32 (monthEndStart dfrom now)
      (exists_monthEnd_32 (validDate_monthEndStart hv))
    exact ⟨m, hm, by unfold getNextMonthEnd; rw [hm]⟩

/-- Witness for C9 at a concrete date. -/
theorem C9_horizon_fallback_unreachable_witness :
    (∃ c, searchDate isFirstOrThirdMonday
        (mondayStart ⟨⟨2026, 2, 4⟩, 12, 0, 0⟩ ⟨⟨2026, 2, 4⟩, 12, 0, 0⟩) 31 = some c ∧
      getNextFirstOrThirdMonday ⟨⟨2026, 2, 4⟩, 12, 0, 0⟩ ⟨⟨2026, 2, 4⟩, 12, 0, 0⟩ =
        ⟨c, 9, 0, 0⟩) ∧
    (∃ c, searchDate isSecondOrFourthFriday
        (fridayStart ⟨⟨2026, 2, 4⟩, 12, 0, 0⟩ ⟨⟨2026, 2, 4⟩, 12, 0, 0⟩) 31 = some c ∧
      getNextSecondOrFourthFriday ⟨⟨2026, 2, 4⟩, 12, 0, 0⟩ ⟨⟨2026, 2, 4⟩, 12, 0, 0⟩ =
        ⟨c, 15, 30, 0⟩) ∧
    (∃ c, searchDate isSecondOrFourthWednesday
        (wednesdayStart ⟨⟨2026, 2, 4⟩, 12, 0, 0⟩ ⟨⟨2026, 2, 4⟩, 12, 0, 0⟩) 31 = some c ∧
      getNextSecondOrFourthWednesday ⟨⟨2026, 2, 4⟩, 12, 0, 0⟩ ⟨⟨2026, 2, 4⟩, 12, 0, 0⟩ =
        ⟨c, 9, 0, 0⟩) ∧
    (∃ c, searchDate isSecondSaturday
        (saturdayStart ⟨⟨2026, 2, 4⟩, 12, 0, 0⟩ ⟨⟨2026, 2, 4⟩, 12, 0, 0⟩) 45 = some c ∧
      getNextSecondSaturday ⟨⟨2026, 2, 4⟩, 12, 0, 0⟩ ⟨⟨2026, 2, 4⟩, 12, 0, 0⟩ =
        ⟨c, 10, 0, 0⟩) ∧
    (∃ c, searchDate isLastDayOfMonth
        (monthEndStart ⟨⟨2026, 2, 4⟩, 12, 0, 0⟩ ⟨⟨2026, 2, 4⟩, 12, 0, 0⟩) 32 = some c ∧
      getNextMonthEnd ⟨⟨2026, 2, 4⟩, 12, 0, 0⟩ ⟨⟨2026, 2, 4⟩, 12, 0, 0⟩ = ⟨c, 9, 0, 0⟩) :=
  C9_horizon_fallback_unreachable ⟨⟨2026, 2, 4⟩, 12, 0, 0⟩ ⟨⟨2026, 2, 4⟩, 12, 0, 0⟩ (by decide)

/-- An id-guarded update is the identity on rows with other ids. -/
theorem map_id_of_ne (l : List JobRun) (nid : Nat) (hid : ∀ r ∈ l, r.id ≠ nid)
    (f : JobRun → JobRun) :
    l.map (fun r => if r.id = nid then f r else r) = l := by
  induction l with
  | nil => rfl
  | cons a l ih =>
    simp only [List.map_cons]
    rw [if_neg (hid a (by simp)), ih fun r hr => hid r (by simp [hr])]

/-- An id-guarded update on a store whose last row carries the fresh id
touches exactly that row. -/
theorem update_fresh (runs : List JobRun) (nid : Nat) (hid : ∀ r ∈ runs, r.id < nid)
    (p : JobRun) (hp : p.id = nid) (f : JobRun → JobRun) :
    (runs ++ [p]).map (fun r => if r.id = nid then f r else r) = runs ++ [f p] := by
  rw [List.map_append, map_id_of_ne runs nid (fun r hr => by have := hid r hr; omega) f]
  simp [hp]

/-- C1 counterexample: with a dispatcher failing on every attempt, the Friday
trigger records the run as Completed with no error text, not as Failed as the
claim states. -/
theorem C1_counterexample :
    (fridayTick (fun _ => none) ⟨⟨2026, 2, 13⟩, 15, 30, 0⟩ Ledger.init).runs.map
        (fun r => (r.status, r.error)) = [(Status.completed, none)] ∧
      Status.completed ≠ Status.failed := by
  decide

/-- C1 (amended): a dispatcher failing on every attempt yields exactly 3 send
attempts with delays `baseDelay` and `2 * baseDelay` between consecutive
attempts, after which `retryScheduledTask` returns `null`; the Friday trigger
then records the run as Completed with no message id (`recordFailed` is
reserved for exceptions escaping the callback, which the retry helper never
throws). -/
theorem C1_retry_exhaustion (dispatch : Nat → Option String) (baseDelay : Nat)
    (now : DT) (L : Ledger) (hfail : ∀ a, dispatch a = none)
    (hq : isSecondOrFourthFriday now.date) (hid : ∀ r ∈ L.runs, r.id < L.nextId) :
    retryScheduledTask dispatch 3 baseDelay = (none, 3, [baseDelay, baseDelay * 2]) ∧
    fridayTick dispatch now L =
      { runs := L.runs ++ [⟨L.nextId, .friday, toSec ⟨now.date, 15, 30, 0⟩, .completed,
          some (toSec now), none, none, none⟩],
        nextId := L.nextId + 1,
        state := L.state } := by
  have e1 : retryGo dispatch baseDelay 3 1 = (none, 1, []) := by
    unfold retryGo
    rw [hfail 3]
    rfl
  have e2 : retryGo dispatch baseDelay 2 2 = (none, 2, [baseDelay * 2]) := by
    unfold retryGo
    rw [hfail 2, e1]
    rfl
  have e3 : retryGo dispatch baseDelay 1 3 = (none, 3, [baseDelay * 1, baseDelay * 2]) := by
    unfold retryGo
    rw [hfail 1, e2]
    rfl
  have hretry : retryScheduledTask dispatch 3 baseDelay =
      (none, 3, [baseDelay, baseDelay * 2]) := by
    unfold retryScheduledTask
    rw [e3, Nat.mul_one]
  refine ⟨hretry, ?_⟩
  have hres : (retryScheduledTask dispatch 3 60000).1 = none := by
    have f1 : retryGo dispatch 60000 3 1 = (none, 1, []) := by
      unfold retryGo
      rw [hfail 3]
      rfl
    have f2 : retryGo dispatch 60000 2 2 = (none, 2, [60000 * 2]) := by
      unfold retryGo
      rw [hfail 2, f1]
      rfl
    have f3 : retryGo dispatch 60000 1 3 = (none, 3, [60000 * 1, 60000 * 2]) := by
      unfold retryGo
      rw [hfail 1, f2]
      rfl
    unfold retryScheduledTask
    rw [f3]
  have hstep : fridayTick dispatch now L =
      recordJobCompleted (recordJobFired .friday (toSec ⟨now.date, 15, 30, 0⟩) L).1
        (retryScheduledTask dispatch 3 60000).1 (toSec now)
        (recordJobFired .friday (toSec ⟨now.date, 15, 30, 0⟩) L).2 := by
    show (if ¬ isSecondOrFourthFriday now.date then
        recordJobSkipped (recordJobFired .friday (toSec ⟨now.date, 15, 30, 0⟩) L).1
          ("Not 2nd or 4th Friday (day " ++ toString now.date.day ++ ")") (toSec now)
          (recordJobFired .friday (toSec ⟨now.date, 15, 30, 0⟩) L).2
      else
        recordJobCompleted (recordJobFired .friday (toSec ⟨now.date, 15, 30, 0⟩) L).1
          (retryScheduledTask dispatch 3 60000).1 (toSec now)
          (recordJobFired .friday (toSec ⟨now.date, 15, 30, 0⟩) L).2) = _
    rw [if_neg (not_not_intro hq)]
  rw [hstep, hres]
  have hupd := update_fresh L.runs L.nextId hid
    (JobRun.mk L.nextId JobType.friday (toSec ⟨now.date, 15, 30, 0⟩)
      Status.pending none none none none) rfl
    (fun r => JobRun.mk r.id r.jobType r.scheduledFor Status.completed
      (some (toSec now)) r.skippedReason (normMsg none) r.error)
  show Ledger.mk
      ((L.runs ++ [JobRun.mk L.nextId JobType.friday (toSec ⟨now.date, 15, 30, 0⟩)
          Status.pending none none none none]).map
        (fun r => if r.id = L.nextId then
          JobRun.mk r.id r.jobType r.scheduledFor Status.completed
            (some (toSec now)) r.skippedReason (normMsg none) r.error
        else r))
      (L.nextId + 1) L.state = _
  rw [hupd]
  rfl

/-- Witness for C1 at a concrete input. -/
theorem C1_retry_exhaustion_witness :
    retryScheduledTask (fun _ => none) 3 60000 = (none, 3, [60000, 60000 * 2]) ∧
    fridayTick (fun _ => none) ⟨⟨2026, 2, 13⟩, 15, 30, 0⟩ Ledger.init =
      { runs := [⟨0, .friday, toSec ⟨⟨2026, 2, 13⟩, 15, 30, 0⟩, .completed,
          some (toSec ⟨⟨2026, 2, 13⟩, 15, 30, 0⟩), none, none, none⟩],
        nextId := 1,
        state := none } :=
  C1_retry_exhaustion (fun _ => none) 60000 ⟨⟨2026, 2, 13⟩, 15, 30, 0⟩ Ledger.init
    (fun _ => rfl) (by decide) (by intro r hr; cases hr)

/-- C6: evaluation showing the bug in the Friday same-day cutoff.  A
qualifying Friday (2026-02-13) at 15:00 local time — before the configured
15:30 slot — is nevertheless skipped (the guard tests `hours >= 15`, making
its `minutes >= 30` disjunct dead code), so the function advances to the next
qualifying Friday 2026-02-27 instead of offering 2026-02-13 15:30. -/
theorem C6_friday_cutoff_eval :
    getNextSecondOrFourthFriday ⟨⟨2026, 2, 13⟩, 15, 0, 0⟩ ⟨⟨2026, 2, 13⟩, 15, 0, 0⟩ =
      ⟨⟨2026, 2, 27⟩, 15, 30, 0⟩ ∧
    isSecondOrFourthFriday ⟨2026, 2, 13⟩ ∧
    (⟨2026, 2, 27⟩ : CivilDate) ≠ ⟨2026, 2, 13⟩ := by
  decide

/-- C2: evaluation of reconciliation.  First conjunct: the spec scenario
(heartbeat Monday 2026-02-02 08:00, now Wednesday 2026-02-04 10:00) records
exactly the single Missed run (monday, Feb 2 09:00).  Second conjunct, the
divergence: with now = Monday 2026-02-02 10:00 (same calendar day, 2 hours of
downtime) no Missed run is recorded at all, although Feb 2 09:00 lies
strictly between heartbeat and now and the day qualifies — `getNext*`
skips 'today' once the slot hour has passed, so same-day missed jobs are
never detected. -/
theorem C2_missed_walk_eval :
    (checkMissedJobs ⟨⟨2026, 2, 4⟩, 10, 0, 0⟩
        ⟨[], 0, some ⟨⟨⟨2026, 2, 2⟩, 8, 0, 0⟩, ⟨⟨2026, 2, 2⟩, 8, 0, 0⟩⟩⟩).runs =
      [⟨0, .monday, toSec ⟨⟨2026, 2, 2⟩, 9, 0, 0⟩, .missed, none, none, none, none⟩] ∧
    (checkMissedJobs ⟨⟨2026, 2, 2⟩, 10, 0, 0⟩
        ⟨[], 0, some ⟨⟨⟨2026, 2, 2⟩, 8, 0, 0⟩, ⟨⟨2026, 2, 2⟩, 8, 0, 0⟩⟩⟩).runs = [] ∧
    isFirstOrThirdMonday ⟨2026, 2, 2⟩ ∧
    toSec ⟨⟨2026, 2, 2⟩, 8, 0, 0⟩ < toSec ⟨⟨2026, 2, 2⟩, 9, 0, 0⟩ ∧
    toSec ⟨⟨2026, 2, 2⟩, 9, 0, 0⟩ < toSec ⟨⟨2026, 2, 2⟩, 10, 0, 0⟩ ∧
    60 ≤ toSec ⟨⟨2026, 2, 2⟩, 10, 0, 0⟩ - toSec ⟨⟨2026, 2, 2⟩, 8, 0, 0⟩ := by
  decide

/-- C7 counterexample: with downtime 30s the reconciliation returns the
ledger untouched — in particular `SchedulerState.lastHeartbeat` is NOT
refreshed, contradicting the claim's heartbeat-update clause. -/
theorem C7_counterexample :
    checkMissedJobs ⟨⟨2026, 2, 2⟩, 10, 0, 10⟩
        ⟨[], 0, some ⟨⟨⟨2026, 2, 2⟩, 9, 59, 40⟩, ⟨⟨2026, 2, 2⟩, 9, 59, 40⟩⟩⟩ =
      ⟨[], 0, some ⟨⟨⟨2026, 2, 2⟩, 9, 59, 40⟩, ⟨⟨2026, 2, 2⟩, 9, 59, 40⟩⟩⟩ ∧
    toSec ⟨⟨2026, 2, 2⟩, 10, 0, 10⟩ - toSec ⟨⟨2026, 2, 2⟩, 9, 59, 40⟩ = 30 ∧
    (⟨⟨2026, 2, 2⟩, 9, 59, 40⟩ : DT) ≠ ⟨⟨2026, 2, 2⟩, 10, 0, 10⟩ := by
  decide

/-- C7 (amended): whenever reconciliation runs with recorded state and
downtime below 60 seconds, it performs zero ledger writes of any kind: the
ledger — job runs, id counter and heartbeat state alike — is returned
unchanged (the early return skips even the heartbeat refresh). -/
theorem C7_short_downtime_no_writes (now : DT) (L : Ledger) (st : SchedState)
    (hstate : L.state = some st) (hshort : toSec now - toSec st.lastHeartbeat < 60) :
    checkMissedJobs now L = L := by
  unfold checkMissedJobs
  rw [hstate]
  show (if toSec now - toSec st.lastHeartbeat < 60 then L else _) = L
  rw [if_pos hshort]

/-- Witness for C7 at a concrete input. -/
theorem C7_short_downtime_no_writes_witness :
    checkMissedJobs ⟨⟨2026, 2, 2⟩, 10, 0, 10⟩
        ⟨[], 5, some ⟨⟨⟨2026, 2, 2⟩, 9, 59, 40⟩, ⟨⟨2026, 2, 1⟩, 7, 0, 0⟩⟩⟩ =
      ⟨[], 5, some ⟨⟨⟨2026, 2, 2⟩, 9, 59, 40⟩, ⟨⟨2026, 2, 1⟩, 7, 0, 0⟩⟩⟩ :=
  C7_short_downtime_no_writes ⟨⟨2026, 2, 2⟩, 10, 0, 10⟩
    ⟨[], 5, some ⟨⟨⟨2026, 2, 2⟩, 9, 59, 40⟩, ⟨⟨2026, 2, 1⟩, 7, 0, 0⟩⟩⟩
    ⟨⟨⟨2026, 2, 2⟩, 9, 59, 40⟩, ⟨⟨2026, 2, 1⟩, 7, 0, 0⟩⟩ rfl (by decide)

/-- An id-fresh pending insert followed by the skip update appends exactly
one Skipped run. -/
theorem skipped_fresh (L : Ledger) (hid : ∀ r ∈ L.runs, r.id < L.nextId)
    (jt : JobType) (sf : Nat) (reason : String) (n : Nat) :
    recordJobSkipped (recordJobFired jt sf L).1 reason n (recordJobFired jt sf L).2 =
      { runs := L.runs ++ [⟨L.nextId, jt, sf, .skipped, some n, some reason, none, none⟩],
        nextId := L.nextId + 1,
        state := L.state } := by
  have hupd := update_fresh L.runs L.nextId hid
    (JobRun.mk L.nextId jt sf Status.pending none none none none) rfl
    (fun r => JobRun.mk r.id r.jobType r.scheduledFor Status.skipped
      (some n) (some reason) r.messageId r.error)
  show Ledger.mk
      ((L.runs ++ [JobRun.mk L.nextId jt sf Status.pending none none none none]).map
        (fun r => if r.id = L.nextId then
          JobRun.mk r.id r.jobType r.scheduledFor Status.skipped
            (some n) (some reason) r.messageId r.error
        else r))
      (L.nextId + 1) L.state = _
  rw [hupd]

/-- C8 counterexample: a MonthEnd tick on 2026-02-17 (not the last day of the
month) performs no ledger write at all — no Pending run and no Skipped
record — refuting the claim that all five job types share the
record-then-skip protocol. -/
theorem C8_counterexample :
    monthEndTick (fun _ => none) ⟨⟨2026, 2, 17⟩, 9, 0, 0⟩ Ledger.init = Ledger.init ∧
    ¬ isLastDayOfMonth ⟨2026, 2, 17⟩ ∧
    (monthEndTick (fun _ => none) ⟨⟨2026, 2, 17⟩, 9, 0, 0⟩ Ledger.init).runs.length = 0 := by
  decide

/-- C8 (amended): the four weekday-based job types share the per-tick
protocol — a Pending run is recorded via `recordFired` before the calendar
predicate is evaluated, and a false predicate turns that run into Skipped
with a human-readable reason; the MonthEnd trigger deviates: it tests the
predicate first and on a non-qualifying day performs no ledger write. -/
theorem C8_tick_protocol (dispatch : Nat → Option String) (now : DT) (L : Ledger)
    (hid : ∀ r ∈ L.runs, r.id < L.nextId) :
    (¬ isFirstOrThirdMonday now.date → mondayTick dispatch now L =
      { runs := L.runs ++ [⟨L.nextId, .monday, toSec ⟨now.date, 9, 0, 0⟩, .skipped,
          some (toSec now),
          some ("Not 1st or 3rd Monday (day " ++ toString now.date.day ++ ")"), none, none⟩],
        nextId := L.nextId + 1,
        state := L.state }) ∧
    (¬ isSecondOrFourthFriday now.date → fridayTick dispatch now L =
      { runs := L.runs ++ [⟨L.nextId, .friday, toSec ⟨now.date, 15, 30, 0⟩, .skipped,
          some (toSec now),
          some ("Not 2nd or 4th Friday (day " ++ toString now.date.day ++ ")"), none, none⟩],
        nextId := L.nextId + 1,
        state := L.state }) ∧
    (¬ isSecondSaturday now.date → demoTick dispatch now L =
      { runs := L.runs ++ [⟨L.nextId, .demo, toSec ⟨now.date, 10, 0, 0⟩, .skipped,
          some (toSec now),
          some ("Not second Saturday (day " ++ toString now.date.day ++ ")"), none, none⟩],
        nextId := L.nextId + 1,
        state := L.state }) ∧
    (¬ isSecondOrFourthWednesday now.date → checkInTick dispatch now L =
      { runs := L.runs ++ [⟨L.nextId, .checkIn, toSec ⟨now.date, 9, 0, 0⟩, .skipped,
          some (toSec now),
          some ("Not 2nd or 4th Wednesday (day " ++ toString now.date.day ++ ")"), none, none⟩],
        nextId := L.nextId + 1,
        state := L.state }) ∧
    (¬ isLastDayOfMonth now.date → monthEndTick dispatch now L = L) := by
  refine ⟨?_, ?_, ?_, ?_, ?_⟩
  · intro h
    have hstep : mondayTick dispatch now L =
        recordJobSkipped (recordJobFired .monday (toSec ⟨now.date, 9, 0, 0⟩) L).1
          ("Not 1st or 3rd Monday (day " ++ toString now.date.day ++ ")") (toSec now)
          (recordJobFired .monday (toSec ⟨now.date, 9, 0, 0⟩) L).2 := by
      show (if ¬ isFirstOrThirdMonday now.date then
          recordJobSkipped (recordJobFired .monday (toSec ⟨now.date, 9, 0, 0⟩) L).1
            ("Not 1st or 3rd Monday (day " ++ toString now.date.day ++ ")") (toSec now)
            (recordJobFired .monday (toSec ⟨now.date, 9, 0, 0⟩) L).2
        else
          recordJobCompleted (recordJobFired .monday (toSec ⟨now.date, 9, 0, 0⟩) L).1
            (retryScheduledTask dispatch 3 60000).1 (toSec now)
            (recordJobFired .monday (toSec ⟨now.date, 9, 0, 0⟩) L).2) = _
      rw [if_pos h]
    rw [hstep]
    exact skipped_fresh L hid .monday (toSec ⟨now.date, 9, 0, 0⟩) _ (toSec now)
  · intro h
    have hstep : fridayTick dispatch now L =
        recordJobSkipped (recordJobFired .friday (toSec ⟨now.date, 15, 30, 0⟩) L).1
          ("Not 2nd or 4th Friday (day " ++ toString now.date.day ++ ")") (toSec now)
          (recordJobFired .friday (toSec ⟨now.date, 15, 30, 0⟩) L).2 := by
      show (if ¬ isSecondOrFourthFriday now.date then
          recordJobSkipped (recordJobFired .friday (toSec ⟨now.date, 15, 30, 0⟩) L).1
            ("Not 2nd or 4th Friday (day " ++ toString now.date.day ++ ")") (toSec now)
            (recordJobFired .friday (toSec ⟨now.date, 15, 30, 0⟩) L).2
        else
          recordJobCompleted (recordJobFired .friday (toSec ⟨now.date, 15, 30, 0⟩) L).1
            (retryScheduledTask dispatch 3 60000).1 (toSec now)
            (recordJobFired .friday (toSec ⟨now.date, 15, 30, 0⟩) L).2) = _
      rw [if_pos h]
    rw [hstep]
    exact skipped_fresh L hid .friday (toSec ⟨now.date, 15, 30, 0⟩) _ (toSec now)
  · intro h
    have hstep : demoTick dispatch now L =
        recordJobSkipped (recordJobFired .demo (toSec ⟨now.date, 10, 0, 0⟩) L).1
          ("Not second Saturday (day " ++ toString now.date.day ++ ")") (toSec now)
          (recordJobFired .demo (toSec ⟨now.date, 10, 0, 0⟩) L).2 := by
      show (if ¬ isSecondSaturday now.date then
          recordJobSkipped (recordJobFired .demo (toSec ⟨now.date, 10, 0, 0⟩) L).1
            ("Not second Saturday (day " ++ toString now.date.day ++ ")") (toSec now)
            (recordJobFired .demo (toSec ⟨now.date, 10, 0, 0⟩) L).2
        else
          recordJobCompleted (recordJobFired .demo (toSec ⟨now.date, 10, 0, 0⟩) L).1
            (retryScheduledTask dispatch 3 60000).1 (toSec now)
            (recordJobFired .demo (toSec ⟨now.date, 10, 0, 0⟩) L).2) = _
      rw [if_pos h]
    rw [hstep]
    exact skipped_fresh L hid .demo (toSec ⟨now.date, 10, 0, 0⟩) _ (toSec now)
  · intro h
    have hstep : checkInTick dispatch now L =
        recordJobSkipped (recordJobFired .checkIn (toSec ⟨now.date, 9, 0, 0⟩) L).1
          ("Not 2nd or 4th Wednesday (day " ++ toString now.date.day ++ ")") (toSec now)
          (recordJobFired .checkIn (toSec ⟨now.date, 9, 0, 0⟩) L).2 := by
      show (if ¬ isSecondOrFourthWednesday now.date then
          recordJobSkipped (recordJobFired .checkIn (toSec ⟨now.date, 9, 0, 0⟩) L).1
            ("Not 2nd or 4th Wednesday (day " ++ toString now.date.day ++ ")") (toSec now)
            (recordJobFired .checkIn (toSec ⟨now.date, 9, 0, 0⟩) L).2
        else
          recordJobCompleted (recordJobFired .checkIn (toSec ⟨now.date, 9, 0, 0⟩) L).1
            (retryScheduledTask dispatch 3 60000).1 (toSec now)
            (recordJobFired .checkIn (toSec ⟨now.date, 9, 0, 0⟩) L).2) = _
      rw [if_pos h]
    rw [hstep]
    exact skipped_fresh L hid .checkIn (toSec ⟨now.date, 9, 0, 0⟩) _ (toSec now)
  · intro h
    unfold monthEndTick
    rw [if_pos h]

/-- Witness for C8 on 2026-02-17, a Tuesday satisfying none of the rules. -/
theorem C8_tick_protocol_witness :
    mondayTick (fun _ => none) ⟨⟨2026, 2, 17⟩, 9, 0, 0⟩ Ledger.init =
      { runs := [⟨0, .monday, toSec ⟨⟨2026, 2, 17⟩, 9, 0, 0⟩, .skipped,
          some (toSec ⟨⟨2026, 2, 17⟩, 9, 0, 0⟩),
          some ("Not 1st or 3rd Monday (day " ++ toString (17 : Nat) ++ ")"), none, none⟩],
        nextId := 1,
        state := none } ∧
    monthEndTick (fun _ => none) ⟨⟨2026, 2, 17⟩, 9, 0, 0⟩ Ledger.init = Ledger.init := by
  have h := C8_tick_protocol (fun _ => none) ⟨⟨2026, 2, 17⟩, 9, 0, 0⟩ Ledger.init
    (by intro r hr; cases hr)
  exact ⟨h.1 (by decide), h.2.2.2.2 (by decide)⟩

/-- A missed insert is a no-op when a run for the pair already exists. -/
theorem recordMissedJob_of_exists (jt : JobType) (t : Nat) (L : Ledger)
    (h : ∃ r ∈ L.runs, r.jobType = jt ∧ r.scheduledFor = t) :
    recordMissedJob jt t L = L := by
  unfold recordMissedJob
  rw [if_pos h]

/-- A missed insert appends one Missed run when no run for the pair exists. -/
theorem recordMissedJob_of_not_exists (jt : JobType) (t : Nat) (L : Ledger)
    (h : ¬ ∃ r ∈ L.runs, r.jobType = jt ∧ r.scheduledFor = t) :
    recordMissedJob jt t L =
      { runs := L.runs ++ [⟨L.nextId, jt, t, .missed, none, none, none, none⟩],
        nextId := L.nextId + 1,
        state := L.state } := by
  unfold recordMissedJob
  rw [if_neg h]

/-- C5 counterexample: from a reachable ledger already holding two runs for
the pair (two recordFired calls), two recordMissed calls leave two runs for
the pair, not exactly one as the claim states. -/
theorem C5_counterexample :
    ReachableLedger (applyOps [.fired .monday 0, .fired .monday 0]) ∧
    pairCount
      (recordMissedJob .monday 0
        (recordMissedJob .monday 0 (applyOps [.fired .monday 0, .fired .monday 0])))
      .monday 0 = 2 ∧
    (2 : Nat) ≠ 1 :=
  ⟨⟨[.fired .monday 0, .fired .monday 0], rfl⟩, by decide, by decide⟩

/-- C5 (amended): recordMissed is idempotent — the second identical call is
always a no-op; and provided at most one run for (jobType, t) exists
beforehand, two calls leave exactly one run for the pair, inserted with
status Missed when none existed before the first call. -/
theorem C5_recordMissed_idempotent (jt : JobType) (t : Nat) (L : Ledger) :
    recordMissedJob jt t (recordMissedJob jt t L) = recordMissedJob jt t L ∧
    (pairCount L jt t ≤ 1 →
      pairCount (recordMissedJob jt t (recordMissedJob jt t L)) jt t = 1) ∧
    (pairCount L jt t = 0 →
      recordMissedJob jt t L =
        { runs := L.runs ++ [⟨L.nextId, jt, t, .missed, none, none, none, none⟩],
          nextId := L.nextId + 1,
          state := L.state }) := by
  by_cases h : ∃ r ∈ L.runs, r.jobType = jt ∧ r.scheduledFor = t
  · have h1 : recordMissedJob jt t L = L := recordMissedJob_of_exists jt t L h
    have hpos : 0 < pairCount L jt t := by
      unfold pairCount
      rw [List.countP_pos]
      obtain ⟨r, hr, hj, hs⟩ := h
      exact ⟨r, hr, by simp [hj, hs]⟩
    refine ⟨by rw [h1]; exact h1, ?_, ?_⟩
    · intro hle
      rw [h1, h1]
      omega
    · intro h0
      omega
  · have h1 := recordMissedJob_of_not_exists jt t L h
    have hzero : pairCount L jt t = 0 := by
      unfold pairCount
      rw [List.countP_eq_zero]
      intro r hr
      simp only [decide_eq_true_eq]
      intro hpair
      exact h ⟨r, hr, hpair⟩
    have h2 : ∃ r ∈ (recordMissedJob jt t L).runs, r.jobType = jt ∧ r.scheduledFor = t := by
      rw [h1]
      exact ⟨⟨L.nextId, jt, t, .missed, none, none, none, none⟩, by simp, rfl, rfl⟩
    have h3 := recordMissedJob_of_exists jt t (recordMissedJob jt t L) h2
    refine ⟨h3, ?_, fun _ => h1⟩
    intro hle
    rw [h3, h1]
    unfold pairCount
    rw [List.countP_append]
    have : pairCount L jt t = 0 := hzero
    unfold pairCount at this
    rw [this]
    simp

/-- C3 counterexample: two recordFired calls with identical arguments are a
reachable operation sequence leaving two JobRuns for the same
(jobType, scheduledFor) pair. -/
theorem C3_counterexample :
    ReachableLedger (applyOps [.fired .monday 0, .fired .monday 0]) ∧
    pairCount (applyOps [.fired .monday 0, .fired .monday 0]) .monday 0 = 2 ∧
    (2 : Nat) ≠ 1 :=
  ⟨⟨[.fired .monday 0, .fired .monday 0], rfl⟩, by decide, by decide⟩

/-- A row-wise rewrite that either fixes a row or moves it out of the Missed
status can only lower the count of Missed runs matching a pair. -/
theorem countP_missed_map_le (runs : List JobRun) (u : JobRun → JobRun)
    (hu : ∀ r, u r = r ∨ (u r).status ≠ Status.missed) (jt : JobType) (t : Nat) :
    (runs.map u).countP
        (fun r => decide (r.jobType = jt ∧ r.scheduledFor = t ∧ r.status = Status.missed)) ≤
      runs.countP
        (fun r => decide (r.jobType = jt ∧ r.scheduledFor = t ∧ r.status = Status.missed)) := by
  rw [List.countP_map]
  apply List.countP_mono_left
  intro r _ hpr
  rcases hu r with heq | hne
  · simp only [Function.comp_apply, heq] at hpr
    exact hpr
  · exfalso
    simp only [Function.comp_apply, decide_eq_true_eq] at hpr
    exact hne hpr.2.2

/-- A single run that is not Missed contributes nothing to a missed-pair count. -/
theorem countP_missed_single (x : JobRun) (hx : x.status ≠ Status.missed)
    (jt : JobType) (t : Nat) :
    ([x]).countP
      (fun r => decide (r.jobType = jt ∧ r.scheduledFor = t ∧ r.status = Status.missed)) = 0 := by
  simp [hx]

/-- Every public ledger operation preserves "at most one Missed run per
(jobType, scheduledFor) pair". -/
theorem missedPairCount_step (L : Ledger) (op : Op)
    (h : ∀ jt t, missedPairCount L jt t ≤ 1) :
    ∀ jt t, missedPairCount (applyOp L op) jt t ≤ 1 := by
  intro jt t
  have hbase := h jt t
  unfold missedPairCount at hbase
  cases op with
  | fired jt2 sf =>
    show (L.runs ++ [JobRun.mk L.nextId jt2 sf Status.pending none none none none]).countP
        (fun r => decide (r.jobType = jt ∧ r.scheduledFor = t ∧
          r.status = Status.missed)) ≤ 1
    rw [List.countP_append, countP_missed_single _ (by simp) jt t]
    omega
  | skipped runId reason n =>
    refine le_trans (countP_missed_map_le L.runs _ ?_ jt t) hbase
    intro r
    by_cases hi : r.id = runId
    · right
      simp [hi]
    · left
      simp [hi]
  | completed runId m n =>
    refine le_trans (countP_missed_map_le L.runs _ ?_ jt t) hbase
    intro r
    by_cases hi : r.id = runId
    · right
      simp [hi]
    · left
      simp [hi]
  | failedOp runId e n =>
    refine le_trans (countP_missed_map_le L.runs _ ?_ jt t) hbase
    intro r
    by_cases hi : r.id = runId
    · right
      simp [hi]
    · left
      simp [hi]
  | missed jt2 sf =>
    show missedPairCount (recordMissedJob jt2 sf L) jt t ≤ 1
    by_cases hex : ∃ r ∈ L.runs, r.jobType = jt2 ∧ r.scheduledFor = sf
    · rw [recordMissedJob_of_exists jt2 sf L hex]
      exact h jt t
    · rw [recordMissedJob_of_not_exists jt2 sf L hex]
      show (L.runs ++ [JobRun.mk L.nextId jt2 sf Status.missed none none none none]).countP
          (fun r => decide (r.jobType = jt ∧ r.scheduledFor = t ∧
            r.status = Status.missed)) ≤ 1
      rw [List.countP_append]
      by_cases hpair : jt2 = jt ∧ sf = t
      · have hzero : L.runs.countP
            (fun r => decide (r.jobType = jt ∧ r.scheduledFor = t ∧
              r.status = Status.missed)) = 0 := by
          rw [List.countP_eq_zero]
          intro r hr
          simp only [decide_eq_true_eq]
          intro hp
          exact hex ⟨r, hr, by rw [hp.1, hpair.1], by rw [hp.2.1, hpair.2]⟩
        rw [hzero, List.countP_cons]
        simp only [List.countP_nil]
        split_ifs <;> omega
      · have hone : ([(JobRun.mk L.nextId jt2 sf Status.missed none none none none)]).countP
            (fun r => decide (r.jobType = jt ∧ r.scheduledFor = t ∧
              r.status = Status.missed)) = 0 := by
          simp only [List.countP_cons, List.countP_nil, decide_eq_true_eq]
          rw [if_neg]
          intro hp
          exact hpair ⟨hp.1, hp.2.1⟩
        rw [hone]
        omega
  | manual jt2 m n =>
    show missedPairCount (recordManualTrigger jt2 m n L).2 jt t ≤ 1
    unfold recordManualTrigger
    cases hsel : selectMissed jt2 L with
    | some mj =>
      refine le_trans (le_of_eq ?_) (le_trans (countP_missed_map_le L.runs
        (fun r => if r.id = mj.id then
          JobRun.mk r.id r.jobType r.scheduledFor Status.manual (some n)
            r.skippedReason (normMsg m) r.error
        else r) ?_ jt t) hbase)
      · rfl
      · intro r
        by_cases hi : r.id = mj.id
        · right
          simp [hi]
        · left
          simp [hi]
    | none =>
      show (L.runs ++ [JobRun.mk L.nextId jt2 n Status.manual (some n) none
          (normMsg m) none]).countP
          (fun r => decide (r.jobType = jt ∧ r.scheduledFor = t ∧
            r.status = Status.missed)) ≤ 1
      rw [List.countP_append, countP_missed_single _ (by simp) jt t]
      omega

/-- C3 (amended): in every ledger state reachable by the public ledger
operations, at most one run with status Missed exists for any given
(jobType, scheduledFor) pair — `recordMissed` alone checks for an existing
pair before inserting; `recordFired` and `recordManualTrigger` insert
unconditionally and may duplicate a pair with non-Missed runs. -/
theorem C3_missed_pair_invariant (L : Ledger) (hL : ReachableLedger L)
    (jt : JobType) (t : Nat) : missedPairCount L jt t ≤ 1 := by
  obtain ⟨ops, rfl⟩ := hL
  suffices hstep : ∀ L0 : Ledger, (∀ jt2 t2, missedPairCount L0 jt2 t2 ≤ 1) →
      ∀ jt2 t2, missedPairCount (ops.foldl applyOp L0) jt2 t2 ≤ 1 by
    refine hstep Ledger.init ?_ jt t
    intro jt2 t2
    show ([] : List JobRun).countP
      (fun r => decide (r.jobType = jt2 ∧ r.scheduledFor = t2 ∧
        r.status = Status.missed)) ≤ 1
    simp
  clear jt t
  induction ops with
  | nil =>
    intro L0 h0 jt2 t2
    exact h0 jt2 t2
  | cons op ops ih =>
    intro L0 h0 jt2 t2
    exact ih (applyOp L0 op) (missedPairCount_step L0 op h0) jt2 t2

/-- Witness for C3 on a concrete reachable ledger. -/
theorem C3_missed_pair_invariant_witness :
    missedPairCount (applyOps [.missed .monday 5, .fired .monday 5]) .monday 5 ≤ 1 :=
  C3_missed_pair_invariant (applyOps [.missed .monday 5, .fired .monday 5])
    ⟨[.missed .monday 5, .fired .monday 5], rfl⟩ .monday 5

/-- Characterization of the `findFirst orderBy desc` fold: a returned row is a
Missed row of the job type whose `scheduledFor` dominates every Missed row of
that type (and the accumulator); `none` means no such row exists. -/
theorem selectGo_spec (jt : JobType) :
    ∀ (l : List JobRun) (a : Option JobRun),
      (∀ m, selectGo jt a l = some m →
        (a = some m ∨ (m ∈ l ∧ m.jobType = jt ∧ m.status = .missed)) ∧
        (∀ c, a = some c → c.scheduledFor ≤ m.scheduledFor) ∧
        (∀ r ∈ l, r.jobType = jt → r.status = .missed →
          r.scheduledFor ≤ m.scheduledFor)) ∧
      (selectGo jt a l = none →
        (a = none ∧ ∀ r ∈ l, ¬ (r.jobType = jt ∧ r.status = .missed))) := by
  intro l
  induction l with
  | nil =>
    intro a
    constructor
    · intro m hm
      have ham : a = some m := hm
      refine ⟨Or.inl ham, ?_, ?_⟩
      · intro c hc
        have : some c = some m := by rw [← hc]; exact ham
        cases this
        exact le_refl _
      · intro r hr
        exact absurd hr (List.not_mem_nil r)
    · intro hm
      exact ⟨hm, fun r hr => absurd hr (List.not_mem_nil r)⟩
  | cons r0 l ih =>
    intro a
    by_cases hc : r0.jobType = jt ∧ r0.status = .missed ∧ laterThan a r0
    · have ha' : selectGo jt a (r0 :: l) = selectGo jt (some r0) l := by
        show selectGo jt (if r0.jobType = jt ∧ r0.status = .missed ∧ laterThan a r0
          then some r0 else a) l = _
        rw [if_pos hc]
      obtain ⟨ih1, ih2⟩ := ih (some r0)
      constructor
      · intro m hm
        rw [ha'] at hm
        obtain ⟨g1, g2, g3⟩ := ih1 m hm
        refine ⟨?_, ?_, ?_⟩
        · rcases g1 with h | h
          · have : r0 = m := Option.some.inj h
            cases this
            exact Or.inr ⟨List.mem_cons_self r0 l, hc.1, hc.2.1⟩
          · exact Or.inr ⟨List.mem_cons_of_mem r0 h.1, h.2⟩
        · intro c hca
          have h1 : c.scheduledFor < r0.scheduledFor := by
            have h2 := hc.2.2
            rw [hca] at h2
            exact h2
          have h2 : r0.scheduledFor ≤ m.scheduledFor := g2 r0 rfl
          omega
        · intro r hr hj hs
          rcases List.mem_cons.mp hr with h | h
          · cases h
            exact g2 r0 rfl
          · exact g3 r h hj hs
      · intro hm
        rw [ha'] at hm
        obtain ⟨g1, _⟩ := ih2 hm
        exact absurd g1 (by simp)
    · have ha' : selectGo jt a (r0 :: l) = selectGo jt a l := by
        show selectGo jt (if r0.jobType = jt ∧ r0.status = .missed ∧ laterThan a r0
          then some r0 else a) l = _
        rw [if_neg hc]
      obtain ⟨ih1, ih2⟩ := ih a
      constructor
      · intro m hm
        rw [ha'] at hm
        obtain ⟨g1, g2, g3⟩ := ih1 m hm
        refine ⟨?_, g2, ?_⟩
        · rcases g1 with h | h
          · exact Or.inl h
          · exact Or.inr ⟨List.mem_cons_of_mem r0 h.1, h.2⟩
        · intro r hr hj hs
          rcases List.mem_cons.mp hr with h | h
          · cases h
            have hnl : ¬ laterThan a r0 := fun hl => hc ⟨hj, hs, hl⟩
            cases ha : a with
            | none =>
              subst ha
              exact absurd (show laterThan none r0 from trivial) hnl
            | some c =>
              subst ha
              have hge : ¬ c.scheduledFor < r0.scheduledFor := fun hlt => hnl hlt
              have hcm : c.scheduledFor ≤ m.scheduledFor := g2 c rfl
              omega
          · exact g3 r h hj hs
      · intro hm
        rw [ha'] at hm
        obtain ⟨g1, g2⟩ := ih2 hm
        refine ⟨g1, ?_⟩
        intro r hr
        rcases List.mem_cons.mp hr with h | h
        · cases h
          intro hq
          subst g1
          exact hc ⟨hq.1, hq.2, trivial⟩
        · exact g2 r h

/-- C4: `recordManualTrigger` resolves the Missed run of the job type with
the greatest `scheduledFor` when one exists — flipping exactly that run to
Manual with `executedAt = now` and the messageId attached — and returns true;
with no Missed run of the type it appends a fresh Manual run with
`scheduledFor = now` and returns false.  (Ids are assumed pairwise distinct,
as the store generates them.) -/
theorem C4_manual_trigger (jt : JobType) (msg : Option String) (now : Nat) (L : Ledger)
    (hids : L.runs.Pairwise (fun A B => A.id ≠ B.id)) :
    ((∃ r ∈ L.runs, r.jobType = jt ∧ r.status = .missed) →
      (recordManualTrigger jt msg now L).1 = true ∧
      ∃ m pre post,
        selectMissed jt L = some m ∧
        m.jobType = jt ∧ m.status = .missed ∧
        (∀ r ∈ L.runs, r.jobType = jt → r.status = .missed →
          r.scheduledFor ≤ m.scheduledFor) ∧
        L.runs = pre ++ m :: post ∧
        (recordManualTrigger jt msg now L).2 =
          { runs := pre ++ (JobRun.mk m.id m.jobType m.scheduledFor Status.manual
              (some now) m.skippedReason (normMsg msg) m.error) :: post,
            nextId := L.nextId,
            state := L.state }) ∧
    ((¬ ∃ r ∈ L.runs, r.jobType = jt ∧ r.status = .missed) →
      recordManualTrigger jt msg now L =
        (false,
          { runs := L.runs ++ [⟨L.nextId, jt, now, .manual, some now, none,
              normMsg msg, none⟩],
            nextId := L.nextId + 1,
            state := L.state })) := by
  constructor
  · intro hex
    cases hsel : selectMissed jt L with
    | none =>
      exfalso
      have hnone := ((selectGo_spec jt L.runs none).2 hsel).2
      obtain ⟨r, hr, hj, hs⟩ := hex
      exact hnone r hr ⟨hj, hs⟩
    | some m =>
      obtain ⟨g1, g2, g3⟩ := (selectGo_spec jt L.runs none).1 m hsel
      rcases g1 with habs | ⟨hmem, hj, hs⟩
      · exact absurd habs (by simp)
      refine ⟨?_, ?_⟩
      · unfold recordManualTrigger
        rw [hsel]
      · obtain ⟨pre, post, hdecomp⟩ := List.append_of_mem hmem
        have hids2 := hids
        rw [hdecomp, List.pairwise_append] at hids2
        obtain ⟨hp1, hp2, hp3⟩ := hids2
        rw [List.pairwise_cons] at hp2
        have hpre : ∀ x ∈ pre, x.id ≠ m.id :=
          fun x hx => hp3 x hx m (List.mem_cons_self m post)
        have hpost : ∀ x ∈ post, x.id ≠ m.id :=
          fun x hx he => hp2.1 x hx he.symm
        have hrmt : (recordManualTrigger jt msg now L).2 =
            Ledger.mk
              (L.runs.map (fun r => if r.id = m.id then
                JobRun.mk r.id r.jobType r.scheduledFor Status.manual
                  (some now) r.skippedReason (normMsg msg) r.error
              else r))
              L.nextId L.state := by
          unfold recordManualTrigger
          rw [hsel]
        refine ⟨m, pre, post, rfl, hj, hs, g3, hdecomp, ?_⟩
        rw [hrmt, hdecomp, List.map_append, List.map_cons]
        rw [map_id_of_ne pre m.id hpre, map_id_of_ne post m.id hpost]
        rw [if_pos rfl]
  · intro hnex
    cases hsel : selectMissed jt L with
    | some m =>
      exfalso
      obtain ⟨g1, _, _⟩ := (selectGo_spec jt L.runs none).1 m hsel
      rcases g1 with habs | ⟨hmem, hj, hs⟩
      · exact absurd habs (by simp)
      · exact hnex ⟨m, hmem, hj, hs⟩
    | none =>
      unfold recordManualTrigger
      rw [hsel]

/-- Witness for C4 at concrete inputs, exercising both branches. -/
theorem C4_manual_trigger_witness :
    (recordManualTrigger .monday (some "mid") 500
        ⟨[⟨0, .monday, 100, .missed, none, none, none, none⟩], 1, none⟩).1 = true ∧
    recordManualTrigger .monday (some "mid") 500 Ledger.init =
      (false,
        { runs := [⟨0, .monday, 500, .manual, some 500, none, some "mid", none⟩],
          nextId := 1,
          state := none }) := by
  have h1 := C4_manual_trigger .monday (some "mid") 500
    ⟨[⟨0, .monday, 100, .missed, none, none, none, none⟩], 1, none⟩ (by simp)
  have h2 := C4_manual_trigger .monday (some "mid") 500 Ledger.init (by simp [Ledger.init])
  refine ⟨(h1.1 ⟨⟨0, .monday, 100, .missed, none, none, none, none⟩,
    by simp, rfl, rfl⟩).1, ?_⟩
  have := h2.2 (by rintro ⟨r, hr, _⟩; cases hr)
  simpa [Ledger.init] using this

/-- Stepping one calendar day back preserves validity and decrements the
serial day number, away from the calendar origin. -/
theorem dayNumber_prevDay {x : CivilDate} (hv : ValidDate x) (h2 : 2 ≤ dayNumber x) :
    ValidDate (prevDay x) ∧ dayNumber (prevDay x) + 1 = dayNumber x := by
  obtain ⟨h1, hm1, hm2, hd1, hd2⟩ := hv
  unfold prevDay
  split
  · rename_i hd
    constructor
    · show 1 ≤ x.year ∧ 1 ≤ x.month ∧ x.month ≤ 12 ∧ 1 ≤ x.day - 1 ∧
        x.day - 1 ≤ monthLen (isLeap x.year) x.month
      omega
    · show daysBeforeYear (x.year - 1) + monthOffset (isLeap x.year) x.month + (x.day - 1) + 1 =
        daysBeforeYear (x.year - 1) + monthOffset (isLeap x.year) x.month + x.day
      omega
  · rename_i hd
    split
    · rename_i hm
      have hstep := monthOffset_succ (isLeap x.year) (x.month - 1) (by omega) (by omega)
      have hmm : x.month - 1 + 1 = x.month := by omega
      rw [hmm] at hstep
      have hb := monthLen_bounds (isLeap x.year) (x.month - 1) (by omega) (by omega)
      constructor
      · show 1 ≤ x.year ∧ 1 ≤ x.month - 1 ∧ x.month - 1 ≤ 12 ∧
          1 ≤ monthLen (isLeap x.year) (x.month - 1) ∧
          monthLen (isLeap x.year) (x.month - 1) ≤ monthLen (isLeap x.year) (x.month - 1)
        omega
      · show daysBeforeYear (x.year - 1) + monthOffset (isLeap x.year) (x.month - 1) +
            monthLen (isLeap x.year) (x.month - 1) + 1 =
          daysBeforeYear (x.year - 1) + monthOffset (isLeap x.year) x.month + x.day
        omega
    · rename_i hm
      have hmo1 : x.month = 1 := by omega
      have hdo1 : x.day = 1 := by
        have : monthLen (isLeap x.year) 1 = 31 := rfl
        omega
      have hoff1 : monthOffset (isLeap x.year) 1 = 0 := by
        cases hL : isLeap x.year <;> simp [monthOffset, hL]
      have hy2 : 2 ≤ x.year := by
        by_contra hlt
        have hy1 : x.year = 1 := by omega
        have : dayNumber x = 1 := by
          unfold dayNumber
          rw [hy1, hmo1, hdo1]
          show daysBeforeYear 0 + monthOffset (isLeap 1) 1 + 1 = 1
          have : monthOffset (isLeap 1) 1 = 0 := by
            cases hL : isLeap 1 <;> simp [monthOffset, hL]
          rw [this]
          rfl
        omega
      have hstepy := daysBeforeYear_succ (x.year - 1) (by omega)
      have hoff12 : monthOffset (isLeap (x.year - 1)) 12 =
          334 + (if isLeap (x.year - 1) then 1 else 0) := by
        cases hL : isLeap (x.year - 1) <;> simp [monthOffset, hL]
      constructor
      · show 1 ≤ x.year - 1 ∧ 1 ≤ 12 ∧ 12 ≤ 12 ∧ 1 ≤ 31 ∧
          31 ≤ monthLen (isLeap (x.year - 1)) 12
        have : monthLen (isLeap (x.year - 1)) 12 = 31 := rfl
        omega
      · show daysBeforeYear (x.year - 1 - 1) + monthOffset (isLeap (x.year - 1)) 12 + 31 + 1 =
          daysBeforeYear (x.year - 1) + monthOffset (isLeap x.year) x.month + x.day
        rw [hoff12, hmo1, hdo1, hoff1, hstepy]
        omega

/-- Iterated back-stepping: validity and day numbers under `subDays`. -/
theorem dayNumber_subDays {x : CivilDate} (hv : ValidDate x) :
    ∀ n, n + 1 ≤ dayNumber x →
      ValidDate (subDays x n) ∧ dayNumber (subDays x n) + n = dayNumber x := by
  intro n
  induction n generalizing x with
  | zero =>
    intro hn
    exact ⟨hv, rfl⟩
  | succ n ih =>
    intro hn
    have h2 : 2 ≤ dayNumber x := by omega
    obtain ⟨hvp, hdp⟩ := dayNumber_prevDay hv h2
    have hn2 : n + 1 ≤ dayNumber (prevDay x) := by omega
    obtain ⟨hvs, hds⟩ := ih hvp hn2
    refine ⟨hvs, ?_⟩
    show dayNumber (subDays (prevDay x) n) + (n + 1) = dayNumber x
    omega

/-- C10: `getMostRecentScheduledDate` never returns an occurrence on
`before`'s own calendar day — regardless of `before`'s time-of-day — and
returns none whenever no qualifying day lies among the 14 calendar days
strictly before `before`'s day (the windowed backward scan starts one day
back; away from the calendar origin the scanned days are all distinct from
`before`'s). -/
theorem C10_most_recent_excludes_today (j : JobType) (before : DT)
    (hv : ValidDate before.date) (hfar : 14 < dayNumber before.date) :
    (∀ r, getMostRecentScheduledDate j before = some r →
      r.date ≠ before.date ∧
      ∃ i, 1 ≤ i ∧ i ≤ 14 ∧ r.date = subDays before.date i ∧
        jobChecker j r.date ∧ r.hour = jobHour j ∧ r.minute = jobMinute j) ∧
    ((∀ i, i < 14 → ¬ jobChecker j (subDays before.date (i + 1))) →
      getMostRecentScheduledDate j before = none) := by
  constructor
  · intro r hr
    unfold getMostRecentScheduledDate at hr
    cases hbs : backSearch (jobChecker j) before.date 14 with
    | none =>
      rw [hbs] at hr
      cases hr
    | some c =>
      rw [hbs] at hr
      cases hr
      obtain ⟨hp, i, hi1, hi2, heq⟩ := backSearch_sound (jobChecker j) 14 before.date c hbs
      constructor
      · intro habs
        have hc : c = before.date := habs
        obtain ⟨hvs, hds⟩ := dayNumber_subDays hv i (by omega)
        rw [← heq, hc] at hds
        omega
      · exact ⟨i, hi1, hi2, heq, hp, rfl, rfl⟩
  · intro hnone
    unfold getMostRecentScheduledDate
    have hn : backSearch (jobChecker j) before.date 14 = none := by
      apply backSearch_none
      intro i h1 h14
      have hle := hnone (i - 1) (by omega)
      have hi : i - 1 + 1 = i := by omega
      rw [hi] at hle
      exact hle
    rw [hn]

/-- Witness for C10: no second Saturday lies in the 14 days before
Wednesday 2026-02-04, so the Demo lookup yields none. -/
theorem C10_most_recent_excludes_today_witness :
    getMostRecentScheduledDate .demo ⟨⟨2026, 2, 4⟩, 12, 0, 0⟩ = none := by
  have h := C10_most_recent_excludes_today .demo ⟨⟨2026, 2, 4⟩, 12, 0, 0⟩
    (by decide) (by decide)
  exact h.2 (by decide)

/-- Witness for C5 at a concrete input. -/
theorem C5_recordMissed_idempotent_witness :
    recordMissedJob .monday 7 (recordMissedJob .monday 7 Ledger.init) =
      recordMissedJob .monday 7 Ledger.init ∧
    pairCount (recordMissedJob .monday 7 (recordMissedJob .monday 7 Ledger.init))
      .monday 7 = 1 ∧
    recordMissedJob .monday 7 Ledger.init =
      { runs := [⟨0, .monday, 7, .missed, none, none, none, none⟩],
        nextId := 1,
        state := none } := by
  have h := C5_recordMissed_idempotent .monday 7 Ledger.init
  exact ⟨h.1, h.2.1 (by decide), h.2.2 (by decide)⟩
